import Mathlib

/-!
Verification development for the match-3 simulation core (`core/GemGrid.js`,
`scenes/Game.js`, `systems/ScoringSystem.js`, `utils/Constants.js`).

Modelling conventions:
* A JS `Gem` object is a `Gem` record.  The `id` field models JS object
  identity (each gem object created by the game is a distinct object); the
  mutable `gridX`/`gridY` fields of the object are record fields.
* The grid `this.gems` (a column-major array of arrays, `gems[x][y]`) is a
  `Board` holding `Option Gem` cells (`none` models JS `null`).
* Mutation of a gem object's fields is modelled by updating the cell that
  holds that object; this is exact whenever each object is referenced from
  exactly one cell, which holds in the executions considered here.
* `Math.random()`-driven choices are modelled by an explicit stream of
  naturals (`List Nat`): each draw `Math.floor(Math.random()*n)` takes the
  head of the stream modulo `n`.
* `async`/`await` animation sequencing has no effect on grid contents and is
  dropped; promises are modelled as plain sequential computation.
* Computations that would throw a `TypeError` in JS (member access on
  `null`/`undefined`) are modelled with `Option`, `none` meaning a crash.
-/

namespace Match3

/-- A gem object (`core/Gem.js`).  `gemType` is the index of the key in
`GEM_TYPES` (six types, 0..5).  `id` models object identity; `gridX`/`gridY`
are the mutable grid-coordinate fields stored on the object by
`GemGrid.createGemAt`. -/
structure Gem where
  id : Nat
  gemType : Nat
  gridX : Int
  gridY : Int
deriving DecidableEq, Repr

/-- The grid of `GemGrid`: `width`/`height` from the config, and the
column-major cell array `this.gems` (`gems[x][y]`). -/
structure Board where
  width : Nat
  height : Nat
  gems : List (List (Option Gem))
deriving DecidableEq, Repr

/-- Read `this.gems[x][y]` by raw (in-range) indices; out-of-range reads give
`none` (JS `undefined`, which is falsy like `null` for every use below). -/
def cellN (b : Board) (x y : Nat) : Option Gem :=
  (b.gems.getD x []).getD y none

/-- `GemGrid.isValidGridPosition`. -/
def isValidGridPosition (b : Board) (x y : Int) : Bool :=
  0 ≤ x && x < (b.width : Int) && 0 ≤ y && y < (b.height : Int)

/-- Read a cell by possibly-negative coordinates; negative indices read JS
properties that the grid never sets, i.e. `undefined`. -/
def cellI (b : Board) (x y : Int) : Option Gem :=
  if 0 ≤ x ∧ 0 ≤ y then cellN b x.toNat y.toNat else none

/-- Write `this.gems[x][y] = v`.  Out-of-range writes are dropped: a negative
JS index becomes an object property invisible to the loops below, and the
grid code never writes past the column ends. -/
def setCellI (b : Board) (x y : Int) (v : Option Gem) : Board :=
  if 0 ≤ x ∧ 0 ≤ y then
    { b with gems := b.gems.set x.toNat ((b.gems.getD x.toNat []).set y.toNat v) }
  else b

/-- `GemGrid.getGemAt`: bounds-checked read returning JS `null` (here `none`)
when the position is invalid. -/
def getGemAt (b : Board) (x y : Int) : Option Gem :=
  if isValidGridPosition b x y then cellI b x y else none

/-- The four neighbour offsets of `GemGrid.getAdjacentGems`, in source order:
up, right, down, left. -/
def adjacentDirs : List (Int × Int) := [(0, -1), (1, 0), (0, 1), (-1, 0)]

/-- The valid neighbour positions of `(x,y)`, in the order
`GemGrid.getAdjacentGems` visits them. -/
def adjacentPositions (b : Board) (x y : Int) : List (Int × Int) :=
  (adjacentDirs.filter fun d => isValidGridPosition b (x + d.1) (y + d.2)).map
    fun d => (x + d.1, y + d.2)

/-- `GemGrid.getAdjacentGems`: contents of the valid neighbour cells
(possibly `null`). -/
def getAdjacentGems (b : Board) (x y : Int) : List (Option Gem) :=
  (adjacentPositions b x y).map fun p => cellI b p.1 p.2

/-- A match object as built by `GemGrid.findMatches` /
`GemGrid.consolidateMatches`: the list of gem objects and the `type` string. -/
structure GemMatch where
  gems : List Gem
  type : String
deriving DecidableEq, Repr

/-- One step of the run-length scan inside `GemGrid.findMatches`.  The JS
accumulator `matchingGems` is reset to `[gem]` on a type change; when the
breaking cell is `null` the JS accumulator becomes `[null]`, which can never
grow (no gem's type equals `undefined`) and never reaches length 3, so it is
modelled as the empty accumulator. -/
def scanAux (dir : String) : List (Option Gem) → List Gem → Option Nat → List GemMatch
  | [], acc, _ => if 3 ≤ acc.length then [⟨acc, dir⟩] else []
  | c :: rest, acc, cur =>
    match c with
    | some g =>
      if cur = some g.gemType then
        scanAux dir rest (acc ++ [g]) cur
      else
        (if 3 ≤ acc.length then [⟨acc, dir⟩] else []) ++
          scanAux dir rest [g] (some g.gemType)
    | none =>
      (if 3 ≤ acc.length then [⟨acc, dir⟩] else []) ++ scanAux dir rest [] none

/-- Scan one row or column for runs of length ≥ 3. -/
def scanLine (dir : String) (cells : List (Option Gem)) : List GemMatch :=
  scanAux dir cells [] none

/-- The cells of row `y` in scan order (`x = 0, …, width-1`). -/
def rowCells (b : Board) (y : Nat) : List (Option Gem) :=
  (List.range b.width).map fun x => cellN b x y

/-- The cells of column `x` in scan order (`y = 0, …, height-1`). -/
def colCells (b : Board) (x : Nat) : List (Option Gem) :=
  (List.range b.height).map fun y => cellN b x y

/-- The raw (pre-consolidation) matches of `GemGrid.findMatches`: all
horizontal runs (rows in order), then all vertical runs (columns in order). -/
def rawMatches (b : Board) : List GemMatch :=
  ((List.range b.height).flatMap fun y => scanLine "horizontal" (rowCells b y)) ++
    ((List.range b.width).flatMap fun x => scanLine "vertical" (colCells b x))

/-- The key `"gridX,gridY"` used by `consolidateMatches`, as a coordinate
pair. -/
def gemKey (g : Gem) : Int × Int := (g.gridX, g.gridY)

/-- An entry of the `matchMap`: the first gem stored under the key, and the
accumulated `matchTypes` list. -/
abbrev MatchMapEntry := Gem × List String

/-- The `matchMap` of `consolidateMatches`, as an association list in
insertion order. -/
abbrev MatchMap := List ((Int × Int) × MatchMapEntry)

/-- Insert one `(match, gem)` occurrence into the map: create the entry on
first sight of the key, then push the match's type. -/
def matchMapAdd (m : MatchMap) (g : Gem) (ty : String) : MatchMap :=
  match m with
  | [] => [(gemKey g, (g, [ty]))]
  | (k, (g₀, tys)) :: rest =>
    if k = gemKey g then (k, (g₀, tys ++ [ty])) :: rest
    else (k, (g₀, tys)) :: matchMapAdd rest g ty

/-- Build the `matchMap` from the raw match list. -/
def buildMatchMap (ms : List GemMatch) : MatchMap :=
  ms.foldl (fun acc m => m.gems.foldl (fun acc g => matchMapAdd acc g m.type) acc) []

/-- `matchMap.get(key)`. -/
def matchMapGet (m : MatchMap) (k : Int × Int) : Option MatchMapEntry :=
  (m.find? fun e => e.1 = k).map (·.2)

/-- `matchMap.has(key)`. -/
def matchMapHas (m : MatchMap) (k : Int × Int) : Bool :=
  (matchMapGet m k).isSome

/-- `GemGrid.findConnectedGems`: depth-first flood over the gems of the
`matchMap`, using each gem's stored `gridX`/`gridY` to look up neighbours on
the live grid.  The JS recursion is bounded by the growth of the visited set;
`fuel` (instantiated with `width*height+1` at the call site) dominates its
depth.  The visited JS `Set` is a duplicate-free list in insertion order. -/
def findConnectedGems (b : Board) (mm : MatchMap) :
    Nat → Gem → List Gem → List Gem
  | 0, _, s => s
  | fuel + 1, g, s =>
    if g ∈ s then s
    else
      (getAdjacentGems b g.gridX g.gridY).foldl
        (fun s adj =>
          match adj with
          | some a => if matchMapHas mm (gemKey a) then
              findConnectedGems b mm fuel a s else s
          | none => s)
        (s ++ [g])

/-- Minimum of a list of integers (`Math.min(...)`); the empty case is never
reached from `identifyPattern` (its argument set is non-empty). -/
def minList : List Int → Int
  | [] => 0
  | x :: xs => xs.foldl min x

/-- Maximum of a list of integers (`Math.max(...)`). -/
def maxList : List Int → Int
  | [] => 0
  | x :: xs => xs.foldl max x

/-- `GemGrid.identifyPattern`, verbatim branch structure: note that the third
branch repeats the first branch's condition. -/
def identifyPattern (gems : List Gem) : String :=
  let minX := minList (gems.map (·.gridX))
  let maxX := maxList (gems.map (·.gridX))
  let minY := minList (gems.map (·.gridY))
  let maxY := maxList (gems.map (·.gridY))
  let width := maxX - minX + 1
  let height := maxY - minY + 1
  if width = 3 ∧ height = 3 then "L_shape"
  else if (width = 3 ∧ height = 2) ∨ (width = 2 ∧ height = 3) then "T_shape"
  else if width = 3 ∧ height = 3 then "cross"
  else "special"

/-- The body of the `matches.forEach` in `consolidateMatches`: state is the
consolidated list and the processed-key set. -/
def consolidateStep (b : Board) (mm : MatchMap)
    (st : List GemMatch × List (Int × Int)) (m : GemMatch) :
    List GemMatch × List (Int × Int) :=
  let (out, processed) := st
  if m.gems.any fun g => gemKey g ∈ processed then (out, processed)
  else
    let inter := m.gems.foldl
      (fun s g =>
        match matchMapGet mm (gemKey g) with
        | some (_, tys) =>
          if 1 < tys.length then
            findConnectedGems b mm (b.width * b.height + 1) g s
          else s
        | none => s)
      []
    if 0 < inter.length then
      (out ++ [⟨inter, identifyPattern inter⟩], processed ++ inter.map gemKey)
    else
      (out ++ [m], processed ++ m.gems.map gemKey)

/-- `GemGrid.consolidateMatches`. -/
def consolidateMatches (b : Board) (ms : List GemMatch) : List GemMatch :=
  (ms.foldl (consolidateStep b (buildMatchMap ms)) ([], [])).1

/-- `GemGrid.findMatches`. -/
def findMatches (b : Board) : List GemMatch :=
  consolidateMatches b (rawMatches b)

/-- `GemGrid.areGemsAdjacent`. -/
def areGemsAdjacent (g1 g2 : Gem) : Bool :=
  let xDiff := (g1.gridX - g2.gridX).natAbs
  let yDiff := (g1.gridY - g2.gridY).natAbs
  (xDiff = 1 && yDiff = 0) || (xDiff = 0 && yDiff = 1)

/-- `GemGrid.swapGems` (grid effect only; the tweened pixel animation and the
swap sound do not touch the grid).  The two objects exchange their
`gridX`/`gridY` fields and are then written into the grid array at their new
coordinates.  Returns the updated objects together with the board. -/
def swapGems (g1 g2 : Gem) (b : Board) : Gem × Gem × Board :=
  let g1' := { g1 with gridX := g2.gridX, gridY := g2.gridY }
  let g2' := { g2 with gridX := g1.gridX, gridY := g1.gridY }
  let b := setCellI b g1'.gridX g1'.gridY (some g1')
  let b := setCellI b g2'.gridX g2'.gridY (some g2')
  (g1', g2', b)

/-- `GemGrid.removeMatches`: every matched gem's cell — addressed through the
gem object's own `gridX`/`gridY` fields — is set to `null`. -/
def removeMatches (ms : List GemMatch) (b : Board) : Board :=
  ms.foldl (fun b m => m.gems.foldl (fun b g => setCellI b g.gridX g.gridY none) b) b

/-- The bottom-to-top column scan of `GemGrid.handleFalling`, processing index
`y` and recursing upward; `fd` is the running `fallDistance`.  A gem above a
gap is cleared from its cell and written `fd` cells lower, with its `gridY`
field increased accordingly. -/
def fallStep : List (Option Gem) → Nat → Nat → List (Option Gem)
  | col, fd, 0 =>
    match col.getD 0 none with
    | none => col
    | some g =>
      if 0 < fd then (col.set 0 none).set fd (some { g with gridY := g.gridY + fd })
      else col
  | col, fd, y + 1 =>
    match col.getD (y + 1) none with
    | none => fallStep col (fd + 1) y
    | some g =>
      if 0 < fd then
        fallStep ((col.set (y + 1) none).set (y + 1 + fd)
          (some { g with gridY := g.gridY + fd })) fd y
      else fallStep col fd y

/-- One column's gravity compaction (`handleFalling`, single `x`). -/
def fallColumn (col : List (Option Gem)) : List (Option Gem) :=
  match col.length with
  | 0 => col
  | n + 1 => fallStep col 0 n

/-- The falling phase of `GemGrid.handleFalling` across all columns (the part
before `refillBoard`). -/
def fallColumns (b : Board) : Board :=
  { b with gems := b.gems.map fallColumn }

/-- The list of all gem type keys, `Object.keys(GEM_TYPES)` (six types). -/
def allGemTypes : List Nat := [0, 1, 2, 3, 4, 5]

/-- One lookback pair of `GemGrid.getAvailableGemTypes`: the excluded types
contributed by two neighbouring cells.  Returns `none` where the JS would
throw: when both cells are `null`, the `===` comparison of two `undefined`s
succeeds and `this.gems[x-1][y].gemType` then dereferences `null`
(`?.gemType` on a missing cell is `undefined`, which never equals a present
type). -/
def lookbackInvalid (c1 c2 : Option Gem) : Option (List Nat) :=
  match c1, c2 with
  | some g1, some g2 => some (if g1.gemType = g2.gemType then [g1.gemType] else [])
  | none, none => none
  | _, _ => some []

/-- `GemGrid.getAvailableGemTypes` (body, given the two lookback results). -/
def getAvailableGemTypes (b : Board) (x y : Nat) : Option (List Nat) :=
  if x < 2 ∧ y < 2 then some allGemTypes
  else
    match
      (if 2 ≤ x then lookbackInvalid (cellN b (x - 1) y) (cellN b (x - 2) y) else some []),
      (if 2 ≤ y then lookbackInvalid (cellN b x (y - 1)) (cellN b x (y - 2)) else some []) with
    | some horiz, some vert =>
      some (allGemTypes.filter fun t => t ∉ horiz ++ vert)
    | _, _ => none

/-- `GemGrid.createGemAt`: pick a random available type (stream head modulo
the number of choices) and build a fresh gem object with grid coordinates
`(x,y)`.  Returns the gem plus the advanced stream and id counter. -/
def createGemAt (b : Board) (x y : Nat) (rng : List Nat) (nextId : Nat) :
    Option (Gem × List Nat × Nat) :=
  match getAvailableGemTypes b x y with
  | none => none
  | some types =>
    let r := rng.headD 0
    let t := types.getD (r % types.length) 0
    some (⟨nextId, t, (x : Int), (y : Int)⟩, rng.tail, nextId + 1)

/-- `GemGrid.refillBoard` on one column: walk `y = 0, …, height-1` and create
a fresh gem in every `null` cell (starting pixel position, alpha and entry
animation do not touch the grid). -/
def refillColumn (x : Nat) : Nat → Board × List Nat × Nat → Option (Board × List Nat × Nat)
  | 0, st => some st
  | n + 1, (b, rng, nextId) =>
    match cellN b x (b.height - (n + 1)) with
    | some _ => refillColumn x n (b, rng, nextId)
    | none =>
      match createGemAt b x (b.height - (n + 1)) rng nextId with
      | none => none
      | some (g, rng', id') =>
        refillColumn x n
          (setCellI b (x : Int) ((b.height - (n + 1) : Nat) : Int) (some g), rng', id')

/-- Iterate the refill over the listed columns (crash propagates). -/
def refillColumns : List Nat → Board × List Nat × Nat → Option (Board × List Nat × Nat)
  | [], st => some st
  | x :: xs, st =>
    match refillColumn x st.1.height st with
    | none => none
    | some st1 => refillColumns xs st1

/-- `GemGrid.refillBoard` across all columns. -/
def refillBoard (b : Board) (rng : List Nat) (nextId : Nat) :
    Option (Board × List Nat × Nat) :=
  refillColumns (List.range b.width) (b, rng, nextId)

/-- `GemGrid.handleFalling`: gravity compaction followed by the refill. -/
def handleFalling (b : Board) (rng : List Nat) (nextId : Nat) :
    Option (Board × List Nat × Nat) :=
  refillBoard (fallColumns b) rng nextId

/-- The mutable context threaded through a cascade: the grid plus the
modelled randomness stream and fresh-id counter. -/
structure GameState where
  board : Board
  rng : List Nat
  nextId : Nat
deriving DecidableEq, Repr

/-- `GemGrid.processMatches`: remove the given matches, let gems fall, refill,
rescan, and recurse while new matches appear.  `fuel` bounds the recursion
depth (the JS recursion is unbounded); `none` means the fuel ran out or a
refill crashed, `some` a completed resolution. -/
def processMatchesFuel : Nat → GameState → List GemMatch → Option GameState
  | 0, _, _ => none
  | fuel + 1, st, ms =>
    match handleFalling (removeMatches ms st.board) st.rng st.nextId with
    | none => none
    | some (b, rng, nextId) =>
      let newMatches := findMatches b
      if newMatches.length = 0 then some ⟨b, rng, nextId⟩
      else processMatchesFuel fuel ⟨b, rng, nextId⟩ newMatches

/-- `GemGrid.trySwapGems`: swap, scan, and on an empty match set swap back
(the match branch hands the matches to `processMatches`).  The boolean
reports whether the move was kept. -/
def trySwapGems (fuel : Nat) (st : GameState) (g1 g2 : Gem) :
    Option (GameState × Bool) :=
  let s := swapGems g1 g2 st.board
  let ms := findMatches s.2.2
  if 0 < ms.length then
    (processMatchesFuel fuel { st with board := s.2.2 } ms).map fun st' => (st', true)
  else
    some ({ st with board := (swapGems s.2.1 s.1 s.2.2).2.2 }, false)

/-- `GemGrid.wouldCreateMatch`, called on the gem objects held at cells `p1`
and `p2` (field mutation of an object updates the cell holding it).  Mirrors
the source line by line: exchange the two objects' coordinate fields, scan
for matches, then run the source's "swap back" — which restores `gem1` but
then copies `gem1`'s just-restored coordinates into `gem2`.  Returns the
match verdict together with the board as left behind. -/
def wouldCreateMatch (b : Board) (p1 p2 : Int × Int) : Option (Bool × Board) :=
  match cellI b p1.1 p1.2, cellI b p2.1 p2.2 with
  | some g1, some g2 =>
    let tempX := g1.gridX
    let tempY := g1.gridY
    let g1s := { g1 with gridX := g2.gridX, gridY := g2.gridY }
    let g2s := { g2 with gridX := tempX, gridY := tempY }
    let bSwapped := setCellI (setCellI b p1.1 p1.2 (some g1s)) p2.1 p2.2 (some g2s)
    let ms := findMatches bSwapped
    let g1r := { g1s with gridX := tempX, gridY := tempY }
    let g2r := { g2s with gridX := g1r.gridX, gridY := g1r.gridY }
    let bAfter := setCellI (setCellI bSwapped p1.1 p1.2 (some g1r)) p2.1 p2.2 (some g2r)
    some (0 < ms.length, bAfter)
  | _, _ => none

/-- The probe sequence of `GemGrid.hasValidMoves`: each cell `(x,y)` paired
with each of its valid neighbour positions, in loop order. -/
def probeList (b : Board) : List ((Nat × Nat) × (Int × Int)) :=
  (List.range b.width).flatMap fun x =>
    (List.range b.height).flatMap fun y =>
      (adjacentPositions b (x : Int) (y : Int)).map fun q => ((x, y), q)

/-- Run the probes, threading the (field-corrupted) board, returning on the
first probe that reports a match. -/
def hasValidMovesAux : List ((Nat × Nat) × (Int × Int)) → Board → Option (Bool × Board)
  | [], b => some (false, b)
  | (p, q) :: rest, b =>
    match wouldCreateMatch b ((p.1 : Int), (p.2 : Int)) q with
    | none => none
    | some (hit, b') =>
      if hit then some (true, b') else hasValidMovesAux rest b'

/-- `GemGrid.hasValidMoves`. -/
def hasValidMoves (b : Board) : Option (Bool × Board) :=
  hasValidMovesAux (probeList b) b

/-- One Fisher–Yates step of `GemGrid.shuffleGems` for flat index `i` against
random index `j`: the two objects (tracked by `posOf`, their current cells)
exchange coordinate fields and are written back at their new field
coordinates.  If a tracked cell is empty the JS would throw on the `null`
member access; `shuffleGems` is only ever run on a fully populated grid, and
the step is modelled as a no-op there. -/
def shuffleSwap (st : Board × List (Nat × Nat)) (i j : Nat) :
    Board × List (Nat × Nat) :=
  let (b, posOf) := st
  let pi := posOf.getD i (0, 0)
  let pj := posOf.getD j (0, 0)
  match cellN b pi.1 pi.2, cellN b pj.1 pj.2 with
  | some gi, some gj =>
    let gi' := { gi with gridX := gj.gridX, gridY := gj.gridY }
    let gj' := { gj with gridX := gi.gridX, gridY := gi.gridY }
    let b := setCellI b gi'.gridX gi'.gridY (some gi')
    let b := setCellI b gj'.gridX gj'.gridY (some gj')
    let posOf := (posOf.set i (gi'.gridX.toNat, gi'.gridY.toNat)).set j
      (gj'.gridX.toNat, gj'.gridY.toNat)
    (b, posOf)
  | _, _ => (b, posOf)

/-- The descending loop of `GemGrid.shuffleGems` (`i = n-1, …, 1`), drawing
`j ∈ [0, i]` from the stream at each step. -/
def shuffleLoop (st : Board × List (Nat × Nat)) (rng : List Nat) :
    Nat → (Board × List (Nat × Nat)) × List Nat
  | 0 => (st, rng)
  | i + 1 =>
    let j := rng.headD 0 % (i + 2)
    shuffleLoop (shuffleSwap st (i + 1) j) rng.tail i

/-- `GemGrid.shuffleGems`: Fisher–Yates over `this.gems.flat()` (column-major
flattening, so flat index `k` starts at cell `(k / height, k % height)`). -/
def shuffleGems (b : Board) (rng : List Nat) : Board × List Nat :=
  let n := b.width * b.height
  let posOf := (List.range n).map fun k => (k / b.height, k % b.height)
  match n with
  | 0 => (b, rng)
  | m + 1 =>
    let r := shuffleLoop (b, posOf) rng m
    (r.1.1, r.2)

/-- The `do … while` condition of `GemGrid.reshuffleBoard`,
`!this.hasValidMoves() || this.findMatches().length > 0`, with JS
short-circuiting: `findMatches` only runs when `hasValidMoves` returned
`true`, and it sees the board the probes left behind. -/
def reshuffleCond (b : Board) : Option (Bool × Board) :=
  match hasValidMoves b with
  | none => none
  | some (hvm, b') =>
    if hvm then some (0 < (findMatches b').length, b')
    else some (true, b')

/-- The retry loop of `GemGrid.reshuffleBoard` (the fade animations do not
touch the grid).  The source has no attempt counter; `fuel` is an external
observation bound, and `some` is returned only if the loop exits within it. -/
def reshuffleLoop : Nat → List Nat → Board → Option Board
  | 0, _, _ => none
  | fuel + 1, rng, b =>
    let s := shuffleGems b rng
    match reshuffleCond s.1 with
    | none => none
    | some (again, b'') =>
      if again then reshuffleLoop fuel s.2 b'' else some b''

end Match3

namespace Scoring

/-- `Game.calculateBasePoints` (`scenes/Game.js`): 100 base points, doubled
for each gem beyond the third. -/
def calculateBasePoints (len : Nat) : Nat :=
  let extraGems := len - 3
  if 0 < extraGems then 100 * 2 ^ extraGems else 100

/-- `SCORING.MATCH_SCORES` (`utils/Constants.js`): the per-length entries of
the base-score table. -/
def MATCH_SCORES (len : Nat) : Option Nat :=
  match len with
  | 3 => some 100
  | 4 => some 300
  | 5 => some 1000
  | 6 => some 3000
  | _ => none

/-- The length-table lookup opening `ScoringSystem.calculateBaseScore`
(`systems/ScoringSystem.js`): `SCORING.MATCH_SCORES[len] ||
SCORING.MATCH_SCORES[6]` (a missing entry is `undefined`, falsy, so any
length outside the table falls back to the entry for 6). -/
def calculateBaseScore (len : Nat) : Nat :=
  (MATCH_SCORES len).getD 3000

/-- Modelled from the spec: "Base score by match length: 3→100, 4→300,
5→1000, ≥6→3000 (configurable table, lengths above the table clamp to the
maximum entry)." -/
def specBaseScore (len : Nat) : Nat :=
  if len = 3 then 100 else if len = 4 then 300 else if len = 5 then 1000 else 3000

/-- `Game.calculateComboMultiplier` (`scenes/Game.js`): `1.0` at combo 0,
otherwise `1.0 + Math.log2(this.combo + 1) * 0.5`; IEEE doubles are modelled
as reals. -/
noncomputable def calculateComboMultiplier (combo : Nat) : ℝ :=
  if combo = 0 then 1 else 1 + Real.logb 2 (combo + 1) * (1 / 2)

/-- Modelled from the spec: "Combo multiplier: `1.0` at depth 0; at depth
`d>0`, multiplier `= 1 + log2(d+1) * 0.5`." -/
noncomputable def specComboMultiplier (d : Nat) : ℝ :=
  if d = 0 then 1 else 1 + Real.logb 2 (d + 1) * (1 / 2)

/-- `ScoringSystem.getComboMultiplier` (`systems/ScoringSystem.js`), with
`SCORING.COMBO_MULTIPLIER = 1.5`; this class is never instantiated by the
game scene. -/
noncomputable def getComboMultiplier (comboCounter : Nat) : ℝ :=
  if comboCounter = 0 then 1 else 1 + (3 / 2) * comboCounter

end Scoring

namespace Match3

/-- The plus-shaped 5-cell footprint spanning a 3×3 box with empty corners:
cells (1,0), (0,1), (1,1), (2,1), (1,2). -/
def exPlus : List Gem :=
  [⟨0, 0, 1, 0⟩, ⟨1, 0, 0, 1⟩, ⟨2, 0, 1, 1⟩, ⟨3, 0, 2, 1⟩, ⟨4, 0, 1, 2⟩]

/-- A 2×2 board with four distinct gem types (so no swap can match). -/
def bC3 : Board :=
  { width := 2, height := 2,
    gems := [[some ⟨0, 0, 0, 0⟩, some ⟨1, 1, 0, 1⟩],
             [some ⟨2, 2, 1, 0⟩, some ⟨3, 3, 1, 1⟩]] }

/-- What `wouldCreateMatch bC3 (0,0) (1,0)` leaves behind: the gem at cell
(1,0) now carries grid coordinates (0,0) — the partner gem was "restored" to
the first gem's original coordinates. -/
def bC3after : Board :=
  { width := 2, height := 2,
    gems := [[some ⟨0, 0, 0, 0⟩, some ⟨1, 1, 0, 1⟩],
             [some ⟨2, 2, 0, 0⟩, some ⟨3, 3, 1, 1⟩]] }

/-- A 2×1 board whose first cell is empty: `getGemAt` answers `none` both for
it and for every out-of-bounds coordinate. -/
def bC9 : Board :=
  { width := 2, height := 1, gems := [[none], [some ⟨0, 0, 1, 0⟩]] }

/-- The token identities present in one column, in cell order. -/
def colIdsL (col : List (Option Gem)) : List Nat :=
  col.filterMap fun c => c.map Gem.id

/-- The token identities present in one column, as a multiset. -/
def colIds (col : List (Option Gem)) : Multiset Nat :=
  (colIdsL col : List Nat)

/-- The multiset of token identities present on the board. -/
def boardIds (b : Board) : Multiset Nat :=
  (b.gems.map colIds).sum

/-- `bC9` after one refill pass with stream `[]` and id counter 7. -/
def bC9f : Board :=
  { width := 2, height := 1, gems := [[some ⟨7, 0, 0, 0⟩], [some ⟨0, 0, 1, 0⟩]] }

/-- A 3×3 board whose middle row is a horizontal 3-match (types: column x
holds `[vx, 0, wx]` with the middle all of type 0). -/
def stC1 : GameState :=
  { board :=
      { width := 3, height := 3,
        gems :=
          [[some ⟨0, 1, 0, 0⟩, some ⟨1, 0, 0, 1⟩, some ⟨2, 2, 0, 2⟩],
           [some ⟨3, 2, 1, 0⟩, some ⟨4, 0, 1, 1⟩, some ⟨5, 3, 1, 2⟩],
           [some ⟨6, 4, 2, 0⟩, some ⟨7, 0, 2, 1⟩, some ⟨8, 5, 2, 2⟩]] },
    rng := [0, 1, 2, 3, 4, 5, 0, 1, 2], nextId := 100 }

/-- The state `processMatchesFuel 5 stC1 (findMatches stC1.board)` ends in:
the matched middle row removed, the top row fallen one cell, three fresh gems
(ids 100–102, types drawn 0, 1, 2 from the stream) spawned on top. -/
def stC1r : GameState :=
  { board :=
      { width := 3, height := 3,
        gems :=
          [[some ⟨100, 0, 0, 0⟩, some ⟨0, 1, 0, 1⟩, some ⟨2, 2, 0, 2⟩],
           [some ⟨101, 1, 1, 0⟩, some ⟨3, 2, 1, 1⟩, some ⟨5, 3, 1, 2⟩],
           [some ⟨102, 2, 2, 0⟩, some ⟨6, 4, 2, 1⟩, some ⟨8, 5, 2, 2⟩]] },
    rng := [3, 4, 5, 0, 1, 2], nextId := 103 }

/-- The grid array agrees with the configured dimensions: `width` columns,
each of length `height`. -/
def wellSized (b : Board) : Prop :=
  b.gems.length = b.width ∧ ∀ col ∈ b.gems, col.length = b.height

instance (b : Board) : Decidable (wellSized b) :=
  inferInstanceAs
    (Decidable (b.gems.length = b.width ∧ ∀ col ∈ b.gems, col.length = b.height))

/-- Every in-range cell is populated. -/
def fullWH (b : Board) : Prop :=
  ∀ x, x < b.width → ∀ y, y < b.height → (cellN b x y).isSome

instance (b : Board) : Decidable (fullWH b) :=
  inferInstanceAs
    (Decidable (∀ x, x < b.width → ∀ y, y < b.height → (cellN b x y).isSome))

/-- Two boards with the same dimensions and the same gem type in every cell
(gem identities and coordinate fields may differ).  The raw match scan only
reads types, so it cannot tell such boards apart. -/
def typesEq (b b' : Board) : Prop :=
  b.width = b'.width ∧ b.height = b'.height ∧
    ∀ x y, (cellN b x y).map Gem.gemType = (cellN b' x y).map Gem.gemType

/-- Every cell content carries the coordinates of its cell — the normal state
of the grid, which the corrupted probes of `wouldCreateMatch` break. -/
def consistent (b : Board) : Prop :=
  ∀ x y g, cellN b x y = some g → g.gridX = (x : Int) ∧ g.gridY = (y : Int)

instance (b : Board) : Decidable (consistent b) :=
  decidable_of_iff
    (∀ x, x < b.gems.length → ∀ y, y < (b.gems.getD x []).length →
      ∀ g, cellN b x y = some g → g.gridX = (x : Int) ∧ g.gridY = (y : Int))
    (by
      constructor
      · intro h x y g hg
        have hyl : y < (b.gems.getD x []).length := by
          by_contra hc
          unfold cellN at hg
          rw [List.getD_eq_default _ _ (le_of_not_lt hc)] at hg
          simp at hg
        have hxl : x < b.gems.length := by
          by_contra hc
          unfold cellN at hg
          rw [List.getD_eq_default _ _ (le_of_not_lt hc)] at hg
          simp at hg
        exact h x hxl y hyl g hg
      · intro h x _ y _ g hg
        exact h x y g hg)

/-- The accumulated `matchTypes` length stored in the map under key `k`
(0 when the key is absent). -/
def tsLen (mm : MatchMap) (k : Int × Int) : Nat :=
  match matchMapGet mm k with
  | some (_, tys) => tys.length
  | none => 0

/-- A 4×3 board: a type-0 cross centred at (1,1) and a type-1 vertical run in
column 3 adjacent to the right arm of the cross.  Consolidation floods across
the type boundary and returns one match containing both types. -/
def b10 : Board :=
  { width := 4, height := 3,
    gems :=
      [[some ⟨0, 2, 0, 0⟩, some ⟨1, 0, 0, 1⟩, some ⟨2, 4, 0, 2⟩],
       [some ⟨3, 0, 1, 0⟩, some ⟨4, 0, 1, 1⟩, some ⟨5, 0, 1, 2⟩],
       [some ⟨6, 3, 2, 0⟩, some ⟨7, 0, 2, 1⟩, some ⟨8, 5, 2, 2⟩],
       [some ⟨9, 1, 3, 0⟩, some ⟨10, 1, 3, 1⟩, some ⟨11, 1, 3, 2⟩]] }

/-- A 3×1 board `[A, B, A]`: swapping the first two gems produces no match. -/
def stC2 : GameState :=
  { board :=
      { width := 3, height := 1,
        gems := [[some ⟨0, 0, 0, 0⟩], [some ⟨1, 1, 1, 0⟩], [some ⟨2, 0, 2, 0⟩]] },
    rng := [], nextId := 50 }

end Match3

/-- C3: the deadlock probe does not revert cleanly.  `wouldCreateMatch` on
the board `bC3` (probing cells (0,0) and (1,0)) reports no match but leaves
the gem at cell (1,0) carrying grid coordinates (0,0): the "swap back" in the
source restores `gem1` first and then copies the restored `gem1` coordinates
into `gem2`, so the board is observably changed by the probe, contradicting
the claim that `hasValidMoves`/`wouldCreateMatch` leave every cell with the
same gem and the same grid coordinates. -/
theorem wouldCreateMatch_leaves_partner_corrupted :
    Match3.wouldCreateMatch Match3.bC3 (0, 0) (1, 0) =
      some (false, Match3.bC3after) ∧
    Match3.cellN Match3.bC3 1 0 = some ⟨2, 2, 1, 0⟩ ∧
    Match3.cellN Match3.bC3after 1 0 = some ⟨2, 2, 0, 0⟩ ∧
    Match3.bC3after ≠ Match3.bC3 := by decide

/-- C4 counterexample: the base score the game applies
(`Game.calculateBasePoints`, invoked from `Game.updateScore` during cascade
resolution) gives a 4-gem match 200 points, not the 300 the claim states. -/
theorem game_basePoints_four_is_200_not_300 :
    Scoring.calculateBasePoints 4 = 200 ∧ Scoring.calculateBasePoints 4 ≠ 300 := by
  decide

/-- C4 amended: the claimed table 3→100, 4→300, 5→1000 with every other
length clamping to 3000 is implemented by `ScoringSystem.calculateBaseScore`
(a module no other file instantiates), which agrees with the spec table on
every length ≥ 3 and clamps every length ≥ 6 to 3000; the base score the
game actually applies, `Game.calculateBasePoints`, instead doubles 100 per
gem beyond the third, giving 200 for a 4-gem match. -/
theorem baseScore_table_vs_game_doubling :
    (∀ len, 3 ≤ len → Scoring.calculateBaseScore len = Scoring.specBaseScore len) ∧
    (∀ len, 6 ≤ len → Scoring.calculateBaseScore len = 3000) ∧
    Scoring.calculateBasePoints 4 = 200 := by
  refine ⟨?_, ?_, rfl⟩
  · intro len hlen
    match len, hlen with
    | 3, _ => rfl
    | 4, _ => rfl
    | 5, _ => rfl
    | 6, _ => rfl
    | n + 7, _ => rfl
  · intro len hlen
    match len, hlen with
    | 6, _ => rfl
    | n + 7, _ => rfl

/-- C4 witness: the table/spec agreement evaluated at lengths 7 and 9. -/
theorem baseScore_table_vs_game_doubling_witness :
    Scoring.calculateBaseScore 7 = Scoring.specBaseScore 7 ∧
    Scoring.calculateBaseScore 9 = 3000 :=
  ⟨baseScore_table_vs_game_doubling.1 7 (by norm_num),
   baseScore_table_vs_game_doubling.2.1 9 (by norm_num)⟩

/-- C5: the combo multiplier the game applies to match scores
(`Game.calculateComboMultiplier`, used by `Game.updateScore`) equals the spec
formula: exactly 1.0 at combo depth 0 and `1 + log2(d+1) * 0.5` at every
depth `d > 0`. -/
theorem comboMultiplier_matches_spec_formula :
    (∀ d, Scoring.calculateComboMultiplier d = Scoring.specComboMultiplier d) ∧
    Scoring.calculateComboMultiplier 0 = 1 ∧
    (∀ d, 0 < d →
      Scoring.calculateComboMultiplier d = 1 + Real.logb 2 (d + 1) * (1 / 2)) := by
  refine ⟨fun d => rfl, by simp [Scoring.calculateComboMultiplier], fun d hd => ?_⟩
  rw [Scoring.calculateComboMultiplier, if_neg hd.ne']

/-- C5 witness: the depth-1 multiplier evaluated through the theorem. -/
theorem comboMultiplier_matches_spec_formula_witness :
    0 < 1 ∧
    Scoring.calculateComboMultiplier 1 =
      1 + Real.logb 2 (((1 : Nat) : ℝ) + 1) * (1 / 2) :=
  ⟨one_pos, comboMultiplier_matches_spec_formula.2.2 1 one_pos⟩

/-- C6: `identifyPattern` classifies the plus-shaped 5-cell footprint as
`"L_shape"`, and no input whatsoever is classified `"cross"`: the cross
branch repeats the already-tested 3×3 bounding-box condition of the L-shape
branch and is unreachable, so the code never distinguishes Cross from
LShape as the claim requires. -/
theorem identifyPattern_cross_unreachable :
    Match3.identifyPattern Match3.exPlus = "L_shape" ∧
    ∀ gs, Match3.identifyPattern gs ≠ "cross" := by
  constructor
  · decide
  · intro gs
    simp only [Match3.identifyPattern]
    split
    · decide
    · split
      · decide
      · decide

/-- C9 counterexample: `getGemAt` on out-of-bounds coordinates returns plain
JS `null` — the very value an empty in-bounds cell returns — instead of
failing with a propagated `OutOfBounds` error: on `bC9`, the reads at
(-1,0) and (2,0) (both invalid) and at (0,0) (valid but empty) are
indistinguishable. -/
theorem getGemAt_oob_returns_plain_null :
    Match3.getGemAt Match3.bC9 (-1) 0 = none ∧
    Match3.getGemAt Match3.bC9 2 0 = none ∧
    Match3.getGemAt Match3.bC9 0 0 = none := by decide

/-- C9 amended: for every coordinate pair outside `[0,width)×[0,height)`,
`getGemAt` silently returns `null` (`none`), the same value as an empty
cell; no error is raised or propagated. -/
theorem getGemAt_oob_none (b : Match3.Board) (x y : Int)
    (h : x < 0 ∨ (b.width : Int) ≤ x ∨ y < 0 ∨ (b.height : Int) ≤ y) :
    Match3.getGemAt b x y = none := by
  have hv : ¬ (Match3.isValidGridPosition b x y = true) := by
    simp only [Match3.isValidGridPosition, Bool.and_eq_true, decide_eq_true_eq]
    omega
  rw [Match3.getGemAt, if_neg hv]

/-- C9 witness: the amended statement evaluated at a concrete invalid
coordinate of `bC9`. -/
theorem getGemAt_oob_none_witness :
    ((-3 : Int) < 0 ∨ (Match3.bC9.width : Int) ≤ -3 ∨ (1 : Int) < 0 ∨
      (Match3.bC9.height : Int) ≤ 1) ∧
    Match3.getGemAt Match3.bC9 (-3) 1 = none :=
  ⟨Or.inl (by norm_num), getGemAt_oob_none Match3.bC9 (-3) 1 (Or.inl (by norm_num))⟩

namespace Match3

theorem colIds_cons_some (g : Gem) (xs : List (Option Gem)) :
    colIds (some g :: xs) = g.id ::ₘ colIds xs := by
  simp [colIds, colIdsL, List.filterMap_cons]

theorem colIds_cons_none (xs : List (Option Gem)) :
    colIds (none :: xs) = colIds xs := by
  simp [colIds, colIdsL, List.filterMap_cons]

theorem getD_set_ne {α : Type} (l : List α) (i j : Nat) (v d : α)
    (h : i ≠ j) : (l.set i v).getD j d = l.getD j d := by
  induction l generalizing i j with
  | nil => simp
  | cons c xs ih =>
    cases i with
    | zero => cases j with
      | zero => exact absurd rfl h
      | succ j => simp [List.set]
    | succ i => cases j with
      | zero => simp [List.set]
      | succ j => simpa [List.set] using ih i j (by omega)

theorem getD_set_self {α : Type} (l : List α) (i : Nat) (v d : α) :
    (l.set i v).getD i d = if i < l.length then v else d := by
  induction l generalizing i with
  | nil => simp
  | cons c xs ih =>
    cases i with
    | zero => simp [List.set]
    | succ i => simpa [List.set, Nat.succ_lt_succ_iff] using ih i

theorem getD_set_none_self (l : List (Option Gem)) (i : Nat) :
    (l.set i none).getD i none = none := by
  induction l generalizing i with
  | nil => simp
  | cons c xs ih =>
    cases i with
    | zero => simp [List.set]
    | succ i => simpa [List.set] using ih i

theorem colIds_set_extract :
    ∀ (col : List (Option Gem)) (y : Nat) (g : Gem), y < col.length →
      col.getD y none = some g → colIds col = g.id ::ₘ colIds (col.set y none)
  | c :: xs, 0, g, _, hg => by
    simp only [List.getD_cons_zero] at hg
    subst hg
    simp [colIds_cons_some, colIds_cons_none, List.set]
  | c :: xs, y + 1, g, hy, hg => by
    simp only [List.getD_cons_succ] at hg
    have hy' : y < xs.length := by simpa using Nat.lt_of_succ_lt_succ hy
    have ih := colIds_set_extract xs y g hy' hg
    cases c with
    | some c =>
      simp only [List.set, colIds_cons_some, ih]
      exact (Multiset.cons_swap _ _ _)
    | none => simp only [List.set, colIds_cons_none, ih]

theorem colIds_set_insert :
    ∀ (col : List (Option Gem)) (y : Nat) (g : Gem), y < col.length →
      col.getD y none = none → colIds (col.set y (some g)) = g.id ::ₘ colIds col
  | [], y, g, hy, _ => by simp at hy
  | c :: xs, 0, g, _, hg => by
    simp only [List.getD_cons_zero] at hg
    subst hg
    simp [colIds_cons_some, colIds_cons_none, List.set]
  | c :: xs, y + 1, g, hy, hg => by
    simp only [List.getD_cons_succ] at hg
    have hy' : y < xs.length := by simpa using Nat.lt_of_succ_lt_succ hy
    have ih := colIds_set_insert xs y g hy' hg
    cases c with
    | some c =>
      simp only [List.set, colIds_cons_some, ih]
      exact (Multiset.cons_swap _ _ _).symm
    | none => simp only [List.set, colIds_cons_none, ih]

theorem colIds_set_none_le :
    ∀ (col : List (Option Gem)) (y : Nat), colIds (col.set y none) ≤ colIds col
  | [], _ => le_refl _
  | c :: xs, 0 => by
    cases c with
    | some c => simp only [List.set, colIds_cons_some, colIds_cons_none]
                exact Multiset.le_cons_self _ _
    | none => simp [List.set]
  | c :: xs, y + 1 => by
    have ih := colIds_set_none_le xs y
    cases c with
    | some c =>
      simp only [List.set, colIds_cons_some]
      exact Multiset.cons_le_cons _ ih
    | none => simpa [List.set, colIds_cons_none] using ih

theorem colIds_le_set_some :
    ∀ (col : List (Option Gem)) (y : Nat) (g : Gem),
      col.getD y none = none → colIds col ≤ colIds (col.set y (some g))
  | [], _, _, _ => le_refl _
  | c :: xs, 0, g, hg => by
    simp only [List.getD_cons_zero] at hg
    subst hg
    simp only [List.set, colIds_cons_some, colIds_cons_none]
    exact Multiset.le_cons_self _ _
  | c :: xs, y + 1, g, hg => by
    simp only [List.getD_cons_succ] at hg
    have ih := colIds_le_set_some xs y g hg
    cases c with
    | some c =>
      simp only [List.set, colIds_cons_some]
      exact Multiset.cons_le_cons _ ih
    | none => simpa [List.set, colIds_cons_none] using ih

theorem sumColIds_set_le :
    ∀ (l : List (List (Option Gem))) (x : Nat) (col' : List (Option Gem)),
      colIds col' ≤ colIds (l.getD x []) →
      ((l.set x col').map colIds).sum ≤ (l.map colIds).sum
  | [], _, _, _ => le_refl _
  | c :: xs, 0, col', h => by
    simp only [List.getD_cons_zero] at h
    simp only [List.set, List.map_cons, List.sum_cons]
    exact add_le_add_right h _
  | c :: xs, x + 1, col', h => by
    simp only [List.getD_cons_succ] at h
    simp only [List.set, List.map_cons, List.sum_cons]
    exact add_le_add_left (sumColIds_set_le xs x col' h) _

theorem sumColIds_le_set :
    ∀ (l : List (List (Option Gem))) (x : Nat) (col' : List (Option Gem)),
      colIds (l.getD x []) ≤ colIds col' →
      (l.map colIds).sum ≤ ((l.set x col').map colIds).sum
  | [], _, _, _ => le_refl _
  | c :: xs, 0, col', h => by
    simp only [List.getD_cons_zero] at h
    simp only [List.set, List.map_cons, List.sum_cons]
    exact add_le_add_right h _
  | c :: xs, x + 1, col', h => by
    simp only [List.getD_cons_succ] at h
    simp only [List.set, List.map_cons, List.sum_cons]
    exact add_le_add_left (sumColIds_le_set xs x col' h) _

theorem boardIds_setCellI_none_le (b : Board) (x y : Int) :
    boardIds (setCellI b x y none) ≤ boardIds b := by
  unfold setCellI
  split
  · exact sumColIds_set_le _ _ _ (colIds_set_none_le _ _)
  · exact le_refl _

theorem boardIds_le_setCellI_some (b : Board) (x y : Nat) (g : Gem)
    (h : cellN b x y = none) :
    boardIds b ≤ boardIds (setCellI b (x : Int) (y : Int) (some g)) := by
  unfold setCellI
  rw [if_pos ⟨Int.natCast_nonneg x, Int.natCast_nonneg y⟩]
  simp only [Int.toNat_natCast]
  exact sumColIds_le_set _ _ _ (colIds_le_set_some _ _ _ h)

end Match3

namespace Match3

theorem fallStep_conserves :
    ∀ (y : Nat) (fd : Nat) (col : List (Option Gem)), y < col.length →
      (∀ k, y < k → k ≤ y + fd → k < col.length ∧ col.getD k none = none) →
      colIds (fallStep col fd y) = colIds col := by
  intro y
  induction y with
  | zero =>
    intro fd col hy hinv
    rw [fallStep]
    split
    · rfl
    · next g hc =>
      split
      · next hfd =>
        obtain ⟨hlen, hnone⟩ := hinv fd hfd (by omega)
        have h1 : colIds col = g.id ::ₘ colIds (col.set 0 none) :=
          colIds_set_extract col 0 g hy hc
        have h2 : (col.set 0 none).getD fd none = none := by
          rw [getD_set_ne _ _ _ _ _ (by omega)]; exact hnone
        have h3 : colIds ((col.set 0 none).set fd
            (some { g with gridY := g.gridY + (fd : Int) })) =
            g.id ::ₘ colIds (col.set 0 none) :=
          colIds_set_insert _ fd _ (by simpa using hlen) h2
        rw [h3, h1]
      · rfl
  | succ y ih =>
    intro fd col hy hinv
    rw [fallStep]
    split
    · next hc =>
      apply ih (fd + 1) col (by omega)
      intro k hk1 hk2
      rcases Nat.eq_or_lt_of_le (Nat.succ_le_of_lt hk1) with he | hlt
      · exact ⟨by omega, by rw [← he]; exact hc⟩
      · exact hinv k hlt (by omega)
    · next g hc =>
      split
      · next hfd =>
        obtain ⟨hlen, hnone⟩ := hinv (y + 1 + fd) (by omega) (by omega)
        have hstep : colIds ((col.set (y + 1) none).set (y + 1 + fd)
            (some { g with gridY := g.gridY + (fd : Int) })) = colIds col := by
          have h1 : colIds col = g.id ::ₘ colIds (col.set (y + 1) none) :=
            colIds_set_extract col (y + 1) g hy hc
          have h2 : (col.set (y + 1) none).getD (y + 1 + fd) none = none := by
            rw [getD_set_ne _ _ _ _ _ (by omega)]; exact hnone
          have h3 := colIds_set_insert (col.set (y + 1) none) (y + 1 + fd)
            { g with gridY := g.gridY + (fd : Int) } (by simpa using hlen) h2
          rw [h3, h1]
        rw [← hstep]
        have hlen2 : ((col.set (y + 1) none).set (y + 1 + fd)
            (some { g with gridY := g.gridY + (fd : Int) })).length = col.length := by
          simp
        apply ih fd _ (by rw [hlen2]; omega)
        intro k hk1 hk2
        rw [hlen2]
        rcases Nat.eq_or_lt_of_le (Nat.succ_le_of_lt hk1) with he | hlt
        · refine ⟨by omega, ?_⟩
          rw [getD_set_ne _ _ _ _ _ (by omega), ← he, getD_set_none_self]
        · obtain ⟨h1, h2⟩ := hinv k hlt (by omega)
          refine ⟨h1, ?_⟩
          rw [getD_set_ne _ _ _ _ _ (by omega), getD_set_ne _ _ _ _ _ (by omega)]
          exact h2
      · next hfd =>
        apply ih fd col (by omega)
        intro k hk1 hk2
        exact absurd hk2 (by omega)

theorem fallColumn_conserves (col : List (Option Gem)) :
    colIds (fallColumn col) = colIds col := by
  rw [fallColumn]
  cases hl : col.length with
  | zero => rfl
  | succ n =>
    exact fallStep_conserves n 0 col (by omega) (fun k hk1 hk2 => by omega)

theorem fallColumns_conserves (b : Board) :
    boardIds (fallColumns b) = boardIds b := by
  unfold boardIds fallColumns
  simp only [List.map_map]
  congr 1
  apply List.map_congr_left
  intro col _
  exact fallColumn_conserves col

theorem removeGems_le (gs : List Gem) :
    ∀ b : Board, boardIds (gs.foldl (fun b g => setCellI b g.gridX g.gridY none) b) ≤
      boardIds b := by
  induction gs with
  | nil => intro b; exact le_refl _
  | cons g gs ih =>
    intro b
    exact (ih _).trans (boardIds_setCellI_none_le b g.gridX g.gridY)

theorem removeMatches_le (ms : List GemMatch) :
    ∀ b : Board, boardIds (removeMatches ms b) ≤ boardIds b := by
  induction ms with
  | nil => intro b; exact le_refl _
  | cons m ms ih =>
    intro b
    exact (ih _).trans (removeGems_le m.gems b)

theorem refillColumn_le (x : Nat) :
    ∀ (n : Nat) (st st' : Board × List Nat × Nat), refillColumn x n st = some st' →
      boardIds st.1 ≤ boardIds st'.1 := by
  intro n
  induction n with
  | zero =>
    intro st st' h
    simp only [refillColumn] at h
    rw [← Option.some_inj.mp h]
  | succ n ih =>
    rintro ⟨b, rng, nextId⟩ st' h
    rw [refillColumn] at h
    split at h
    · exact ih _ _ h
    · next hc =>
      split at h
      · exact absurd h (by simp)
      · next g rng' id' hcg =>
        exact (boardIds_le_setCellI_some b x (b.height - (n + 1)) g hc).trans (ih _ _ h)

theorem refillColumns_le :
    ∀ (xs : List Nat) (st st' : Board × List Nat × Nat),
      refillColumns xs st = some st' → boardIds st.1 ≤ boardIds st'.1 := by
  intro xs
  induction xs with
  | nil =>
    intro st st' h
    simp only [refillColumns] at h
    rw [← Option.some_inj.mp h]
  | cons x xs ih =>
    intro st st' h
    rw [refillColumns] at h
    split at h
    · exact absurd h (by simp)
    · next st1 hc => exact (refillColumn_le x _ st st1 hc).trans (ih st1 st' h)

theorem refillBoard_le (b : Board) (rng : List Nat) (nextId : Nat)
    (b' : Board) (rng' : List Nat) (nextId' : Nat)
    (h : refillBoard b rng nextId = some (b', rng', nextId')) :
    boardIds b ≤ boardIds b' :=
  refillColumns_le (List.range b.width) (b, rng, nextId) (b', rng', nextId') h

end Match3

/-- C8: token identities are conserved across a gravity pass and only moved,
never duplicated or lost — the multiset of gem ids after the falling step
(`handleFalling` before the refill) equals the multiset before it; the
match-removal step can only remove identities, and the refill step can only
add them (every identity present before a successful refill is still present
after it). -/
theorem gravity_pass_conserves_token_ids :
    (∀ b : Match3.Board,
      Match3.boardIds (Match3.fallColumns b) = Match3.boardIds b) ∧
    (∀ (ms : List Match3.GemMatch) (b : Match3.Board),
      Match3.boardIds (Match3.removeMatches ms b) ≤ Match3.boardIds b) ∧
    (∀ (b : Match3.Board) (rng : List Nat) (nextId : Nat) (b' : Match3.Board)
      (rng' : List Nat) (nextId' : Nat),
      Match3.refillBoard b rng nextId = some (b', rng', nextId') →
      Match3.boardIds b ≤ Match3.boardIds b') :=
  ⟨Match3.fallColumns_conserves,
   fun ms b => Match3.removeMatches_le ms b,
   fun b rng nextId b' rng' nextId' h =>
     Match3.refillBoard_le b rng nextId b' rng' nextId' h⟩

/-- C8 witness: the refill conjunct evaluated on the concrete board `bC9`
(one hole), stream `[]`, id counter 7. -/
theorem gravity_pass_conserves_token_ids_witness :
    Match3.refillBoard Match3.bC9 [] 7 = some (Match3.bC9f, [], 8) ∧
    Match3.boardIds Match3.bC9 ≤ Match3.boardIds Match3.bC9f :=
  ⟨by decide,
   gravity_pass_conserves_token_ids.2.2 Match3.bC9 [] 7 Match3.bC9f [] 8 (by decide)⟩

namespace Match3

theorem list_set_getD_self {α : Type} :
    ∀ (l : List α) (i : Nat) (v d : α), l.getD i d = v → i < l.length → l.set i v = l
  | [], i, v, d, _, hi => by simp at hi
  | c :: xs, 0, v, d, hv, _ => by
    simp only [List.getD_cons_zero] at hv
    simp [List.set, hv]
  | c :: xs, i + 1, v, d, hv, hi => by
    simp only [List.getD_cons_succ] at hv
    have hi' : i < xs.length := by simpa using Nat.lt_of_succ_lt_succ hi
    simp [List.set, list_set_getD_self xs i v d hv hi']

theorem inner_set_self (l : List (Option Gem)) (i : Nat) (g : Gem)
    (h : l.getD i none = some g) : l.set i (some g) = l := by
  by_cases hi : i < l.length
  · exact list_set_getD_self l i (some g) none h hi
  · rw [List.set_eq_of_length_le (by omega)]

theorem outer_set_self : ∀ (l : List (List (Option Gem))) (i : Nat),
    l.set i (l.getD i []) = l
  | [], _ => by simp
  | c :: xs, 0 => by simp [List.set]
  | c :: xs, i + 1 => by
    simp only [List.getD_cons_succ, List.set, outer_set_self xs i]

theorem setCellI_cell_self (b : Board) (x y : Int) (g : Gem)
    (h : cellI b x y = some g) : setCellI b x y (some g) = b := by
  unfold cellI at h
  unfold setCellI
  split
  · next hpos =>
    rw [if_pos hpos] at h
    unfold cellN at h
    rw [inner_set_self _ _ _ h, outer_set_self]
  · rfl

theorem setCellI_overwrite (b : Board) (x y : Int) (v w : Option Gem) :
    setCellI (setCellI b x y v) x y w = setCellI b x y w := by
  unfold setCellI
  split
  · next hpos =>
    simp only
    congr 1
    by_cases hx : x.toNat < b.gems.length
    · rw [getD_set_self, if_pos hx, List.set_set, List.set_set]
    · have hle := le_of_not_lt hx
      have e1 : b.gems.set x.toNat ((b.gems.getD x.toNat []).set y.toNat v) = b.gems :=
        List.set_eq_of_length_le hle
      rw [e1]
  · rfl

theorem setCellI_comm (b : Board) (x1 y1 x2 y2 : Int) (v w : Option Gem)
    (h : (x1, y1) ≠ (x2, y2)) :
    setCellI (setCellI b x1 y1 v) x2 y2 w = setCellI (setCellI b x2 y2 w) x1 y1 v := by
  by_cases h1 : 0 ≤ x1 ∧ 0 ≤ y1
  · by_cases h2 : 0 ≤ x2 ∧ 0 ≤ y2
    · unfold setCellI
      rw [if_pos h1, if_pos h2]
      simp only [if_pos h1, if_pos h2]
      congr 1
      by_cases hx : x1.toNat = x2.toNat
      · have hy : y1.toNat ≠ y2.toNat := by
          intro hy
          exact h (by
            have ex : x1 = x2 := by omega
            have ey : y1 = y2 := by omega
            rw [ex, ey])
        rw [← hx]
        by_cases hxl : x1.toNat < b.gems.length
        · rw [getD_set_self, if_pos hxl, getD_set_self, if_pos hxl,
            List.set_set, List.set_set, List.set_comm _ _ _ hy]
        · have hle := le_of_not_lt hxl
          have e1 : b.gems.set x1.toNat ((b.gems.getD x1.toNat []).set y1.toNat v) =
              b.gems := List.set_eq_of_length_le hle
          have e2 : b.gems.set x1.toNat ((b.gems.getD x1.toNat []).set y2.toNat w) =
              b.gems := List.set_eq_of_length_le hle
          rw [e1, e2]
          exact e1.symm
      · rw [getD_set_ne _ _ _ _ _ hx, getD_set_ne _ _ _ _ _ (fun hh => hx hh.symm),
          List.set_comm _ _ _ hx]
    · unfold setCellI
      rw [if_neg h2, if_neg h2]
  · unfold setCellI
    rw [if_neg h1, if_neg h1]

end Match3

/-- C2: a failed swap is all-or-nothing.  If the two gems sit on the board at
their recorded coordinates, are adjacent, and their swap produces an empty
match set, then `trySwapGems` returns the state exactly as it was before the
swap: every cell (and the rng stream and id counter) is unchanged, and the
move is reported rejected. -/
theorem trySwap_noMatch_restores (fuel : Nat) (st : Match3.GameState)
    (g1 g2 : Match3.Gem)
    (h1 : Match3.cellI st.board g1.gridX g1.gridY = some g1)
    (h2 : Match3.cellI st.board g2.gridX g2.gridY = some g2)
    (hadj : Match3.areGemsAdjacent g1 g2 = true)
    (hnm : (Match3.findMatches (Match3.swapGems g1 g2 st.board).2.2).length = 0) :
    Match3.trySwapGems fuel st g1 g2 = some (st, false) := by
  have hne : (g1.gridX, g1.gridY) ≠ (g2.gridX, g2.gridY) := by
    intro he
    rw [Match3.areGemsAdjacent] at hadj
    have hx : g1.gridX = g2.gridX := congrArg Prod.fst he
    have hy : g1.gridY = g2.gridY := congrArg Prod.snd he
    rw [hx, hy] at hadj
    simp at hadj
  simp only [Match3.trySwapGems]
  rw [if_neg (by omega)]
  congr 1
  have hboard : (Match3.swapGems (Match3.swapGems g1 g2 st.board).2.1
      (Match3.swapGems g1 g2 st.board).1
      (Match3.swapGems g1 g2 st.board).2.2).2.2 = st.board := by
    show Match3.setCellI
        (Match3.setCellI
          (Match3.setCellI (Match3.setCellI st.board g2.gridX g2.gridY _)
            g1.gridX g1.gridY _)
          g2.gridX g2.gridY (some g2))
        g1.gridX g1.gridY (some g1) = st.board
    rw [Match3.setCellI_comm _ _ _ _ _ _ _ (fun hh => hne hh.symm),
      Match3.setCellI_overwrite, Match3.setCellI_comm _ _ _ _ _ _ _ hne,
      Match3.setCellI_overwrite, Match3.setCellI_cell_self _ _ _ _ h2,
      Match3.setCellI_cell_self _ _ _ _ h1]
  rw [hboard]

/-- C2 witness: the rejected swap on the concrete 3×1 board `[A, B, A]`
returns the state unchanged. -/
theorem trySwap_noMatch_restores_witness :
    Match3.cellI Match3.stC2.board (0 : Int) 0 = some ⟨0, 0, 0, 0⟩ ∧
    Match3.cellI Match3.stC2.board (1 : Int) 0 = some ⟨1, 1, 1, 0⟩ ∧
    Match3.areGemsAdjacent ⟨0, 0, 0, 0⟩ ⟨1, 1, 1, 0⟩ = true ∧
    (Match3.findMatches
      (Match3.swapGems ⟨0, 0, 0, 0⟩ ⟨1, 1, 1, 0⟩ Match3.stC2.board).2.2).length = 0 ∧
    Match3.trySwapGems 3 Match3.stC2 ⟨0, 0, 0, 0⟩ ⟨1, 1, 1, 0⟩ =
      some (Match3.stC2, false) :=
  ⟨by decide, by decide, by decide, by decide,
   trySwap_noMatch_restores 3 Match3.stC2 ⟨0, 0, 0, 0⟩ ⟨1, 1, 1, 0⟩
     (by decide) (by decide) (by decide) (by decide)⟩

namespace Match3

theorem wellSized_setCellI (b : Board) (x y : Int) (v : Option Gem)
    (h : wellSized b) : wellSized (setCellI b x y v) := by
  obtain ⟨hw, hcols⟩ := h
  unfold setCellI
  split
  · refine ⟨by simpa using hw, ?_⟩
    intro col hcol
    by_cases hx : x.toNat < b.gems.length
    · rcases List.mem_or_eq_of_mem_set hcol with hmem | heq
      · exact hcols col hmem
      · subst heq
        rw [List.length_set]
        apply hcols
        rw [List.getD_eq_getElem _ _ hx]
        exact List.getElem_mem hx
    · rw [List.set_eq_of_length_le (le_of_not_lt hx)] at hcol
      exact hcols col hcol
  · exact ⟨hw, hcols⟩
end Match3

namespace Match3

theorem wellSized_removeGems (gs : List Gem) :
    ∀ b : Board, wellSized b →
      wellSized (gs.foldl (fun b g => setCellI b g.gridX g.gridY none) b) := by
  induction gs with
  | nil => intro b h; exact h
  | cons g gs ih => intro b h; exact ih _ (wellSized_setCellI _ _ _ _ h)

theorem wellSized_removeMatches (ms : List GemMatch) :
    ∀ b : Board, wellSized b → wellSized (removeMatches ms b) := by
  induction ms with
  | nil => intro b h; exact h
  | cons m ms ih => intro b h; exact ih _ (wellSized_removeGems m.gems b h)

theorem fallStep_length : ∀ (y fd : Nat) (col : List (Option Gem)),
    (fallStep col fd y).length = col.length := by
  intro y
  induction y with
  | zero =>
    intro fd col
    rw [fallStep]
    split
    · rfl
    · split
      · simp
      · rfl
  | succ y ih =>
    intro fd col
    rw [fallStep]
    split
    · rw [ih]
    · split
      · rw [ih]; simp
      · rw [ih]

theorem fallColumn_length (col : List (Option Gem)) :
    (fallColumn col).length = col.length := by
  rw [fallColumn]
  split
  · rfl
  · exact fallStep_length _ _ _

theorem wellSized_fallColumns (b : Board) (h : wellSized b) :
    wellSized (fallColumns b) := by
  obtain ⟨hw, hcols⟩ := h
  refine ⟨by simpa [fallColumns] using hw, ?_⟩
  intro col hcol
  simp only [fallColumns, List.mem_map] at hcol
  obtain ⟨col0, hmem, rfl⟩ := hcol
  rw [fallColumn_length]
  exact hcols col0 hmem

theorem cellN_setCellI_self (b : Board) (x y : Nat) (v : Option Gem)
    (hx : x < b.gems.length) (hy : y < (b.gems.getD x []).length) :
    cellN (setCellI b (x : Int) (y : Int) v) x y = v := by
  unfold setCellI
  rw [if_pos ⟨Int.natCast_nonneg x, Int.natCast_nonneg y⟩]
  unfold cellN
  simp only [Int.toNat_natCast]
  rw [getD_set_self, if_pos hx, getD_set_self, if_pos hy]

theorem cellN_setCellI_ne (b : Board) (x y : Nat) (v : Option Gem) (p q : Nat)
    (h : ¬ (x = p ∧ y = q)) :
    cellN (setCellI b (x : Int) (y : Int) v) p q = cellN b p q := by
  unfold setCellI
  rw [if_pos ⟨Int.natCast_nonneg x, Int.natCast_nonneg y⟩]
  unfold cellN
  simp only [Int.toNat_natCast]
  by_cases hx : x = p
  · subst hx
    have hy : y ≠ q := fun hh => h ⟨rfl, hh⟩
    by_cases hxl : x < b.gems.length
    · rw [getD_set_self, if_pos hxl, getD_set_ne _ _ _ _ _ hy]
    · rw [List.set_eq_of_length_le (le_of_not_lt hxl)]
  · rw [getD_set_ne _ _ _ _ _ hx]

end Match3

namespace Match3

theorem setCellI_width (b : Board) (x y : Int) (v : Option Gem) :
    (setCellI b x y v).width = b.width := by
  unfold setCellI; split <;> rfl

theorem setCellI_height (b : Board) (x y : Int) (v : Option Gem) :
    (setCellI b x y v).height = b.height := by
  unfold setCellI; split <;> rfl

theorem colLen_of_wellSized (b : Board) (x : Nat) (h : wellSized b)
    (hx : x < b.width) : (b.gems.getD x []).length = b.height := by
  obtain ⟨hw, hcols⟩ := h
  have hxl : x < b.gems.length := by omega
  rw [List.getD_eq_getElem _ _ hxl]
  exact hcols _ (List.getElem_mem hxl)

theorem refillColumn_spec (x : Nat) :
    ∀ (n : Nat) (b : Board) (rng : List Nat) (nid : Nat)
      (st' : Board × List Nat × Nat),
      refillColumn x n (b, rng, nid) = some st' →
      wellSized b → x < b.width → n ≤ b.height →
      wellSized st'.1 ∧ st'.1.width = b.width ∧ st'.1.height = b.height ∧
      (∀ p q, (cellN b p q).isSome → (cellN st'.1 p q).isSome) ∧
      (∀ q, b.height - n ≤ q → q < b.height → (cellN st'.1 x q).isSome) := by
  intro n
  induction n with
  | zero =>
    intro b rng nid st' h hws hx _
    simp only [refillColumn] at h
    obtain rfl := Option.some_inj.mp h
    exact ⟨hws, rfl, rfl, fun p q hpq => hpq, fun q hq1 hq2 => absurd hq1 (by omega)⟩
  | succ n ih =>
    intro b rng nid st' h hws hx hn
    rw [refillColumn] at h
    split at h
    · next g0 hc =>
      obtain ⟨c1, c2, c3, c4, c5⟩ := ih b rng nid st' h hws hx (by omega)
      refine ⟨c1, c2, c3, c4, ?_⟩
      intro q hq1 hq2
      by_cases hq : b.height - n ≤ q
      · exact c5 q hq hq2
      · have : q = b.height - (n + 1) := by omega
        subst this
        exact c4 _ _ (by rw [hc]; rfl)
    · next hc =>
      split at h
      · exact absurd h (by simp)
      · next g rng' id' hcg =>
        have hy : b.height - (n + 1) < b.height := by omega
        have hxl : x < b.gems.length := by
          obtain ⟨hw, _⟩ := hws; omega
        have hyl : b.height - (n + 1) < (b.gems.getD x []).length := by
          rw [colLen_of_wellSized b x hws hx]; omega
        have hself : cellN (setCellI b (x : Int) ((b.height - (n + 1) : Nat) : Int)
            (some g)) x (b.height - (n + 1)) = some g :=
          cellN_setCellI_self b x (b.height - (n + 1)) (some g) hxl hyl
        have hws1 := wellSized_setCellI b (x : Int)
          ((b.height - (n + 1) : Nat) : Int) (some g) hws
        obtain ⟨c1, c2, c3, c4, c5⟩ := ih _ rng' id' st' h hws1
          (by rw [setCellI_width]; exact hx) (by rw [setCellI_height]; omega)
        rw [setCellI_width] at c2
        rw [setCellI_height] at c3
        refine ⟨c1, c2, c3, ?_, ?_⟩
        · intro p q hpq
          by_cases hpq' : x = p ∧ b.height - (n + 1) = q
          · obtain ⟨rfl, rfl⟩ := hpq'
            exact c4 _ _ (by rw [hself]; rfl)
          · refine c4 p q ?_
            rw [cellN_setCellI_ne b x (b.height - (n + 1)) (some g) p q hpq']
            exact hpq
        · intro q hq1 hq2
          by_cases hq : b.height - n ≤ q
          · exact c5 q (by rw [setCellI_height]; omega) (by rw [setCellI_height]; omega)
          · have : q = b.height - (n + 1) := by omega
            subst this
            exact c4 _ _ (by rw [hself]; rfl)

end Match3

namespace Match3

theorem refillColumns_spec :
    ∀ (xs : List Nat) (b : Board) (rng : List Nat) (nid : Nat)
      (st' : Board × List Nat × Nat),
      refillColumns xs (b, rng, nid) = some st' →
      wellSized b → (∀ x ∈ xs, x < b.width) →
      wellSized st'.1 ∧ st'.1.width = b.width ∧ st'.1.height = b.height ∧
      (∀ p q, (cellN b p q).isSome → (cellN st'.1 p q).isSome) ∧
      (∀ x ∈ xs, ∀ q, q < b.height → (cellN st'.1 x q).isSome) := by
  intro xs
  induction xs with
  | nil =>
    intro b rng nid st' h hws _
    simp only [refillColumns] at h
    obtain rfl := Option.some_inj.mp h
    exact ⟨hws, rfl, rfl, fun p q hpq => hpq, fun x hx => absurd hx (by simp)⟩
  | cons x xs ih =>
    intro b rng nid st' h hws hxs
    rw [refillColumns] at h
    split at h
    · exact absurd h (by simp)
    · next st1 hc =>
      obtain ⟨b1, rng1, nid1⟩ := st1
      obtain ⟨d1, d2, d3, d4, d5⟩ :=
        refillColumn_spec x b.height b rng nid (b1, rng1, nid1) hc hws
          (hxs x (by simp)) (le_refl _)
      obtain ⟨c1, c2, c3, c4, c5⟩ := ih b1 rng1 nid1 st' h d1
        (fun p hp => by rw [d2]; exact hxs p (by simp [hp]))
      refine ⟨c1, by rw [c2, d2], by rw [c3, d3], ?_, ?_⟩
      · intro p q hpq
        exact c4 p q (d4 p q hpq)
      · intro p hp q hq
        rcases List.mem_cons.mp hp with rfl | hmem
        · exact c4 p q (d5 q (by omega) hq)
        · exact c5 p hmem q (by rw [d3]; exact hq)

theorem refillBoard_full (b : Board) (rng : List Nat) (nid : Nat)
    (b' : Board) (rng' : List Nat) (nid' : Nat)
    (h : refillBoard b rng nid = some (b', rng', nid')) (hws : wellSized b) :
    wellSized b' ∧ b'.width = b.width ∧ b'.height = b.height ∧ fullWH b' := by
  obtain ⟨c1, c2, c3, _, c5⟩ :=
    refillColumns_spec (List.range b.width) b rng nid (b', rng', nid') h hws
      (fun x hx => List.mem_range.mp hx)
  dsimp only at c1 c2 c3 c5
  refine ⟨c1, c2, c3, ?_⟩
  intro x hx y hy
  exact c5 x (List.mem_range.mpr (by omega)) y (by omega)

theorem full_member (b : Board) (hws : wellSized b) (hf : fullWH b) :
    ∀ col ∈ b.gems, ∀ c ∈ col, c.isSome := by
  obtain ⟨hw, hcols⟩ := hws
  intro col hcol c hc
  obtain ⟨i, hi, rfl⟩ := List.getElem_of_mem hcol
  obtain ⟨j, hj, rfl⟩ := List.getElem_of_mem hc
  have hcell : cellN b i j = b.gems[i][j] := by
    unfold cellN
    rw [List.getD_eq_getElem _ _ hi, List.getD_eq_getElem _ _ hj]
  have := hf i (by omega) j (by
    have := hcols _ (List.getElem_mem hi)
    omega)
  rw [hcell] at this
  exact this

theorem fallStep_id_of_full :
    ∀ (y : Nat) (col : List (Option Gem)), y < col.length →
      (∀ c ∈ col, c.isSome) → fallStep col 0 y = col := by
  intro y
  induction y with
  | zero =>
    intro col _ _
    rw [fallStep]
    split
    · rfl
    · rw [if_neg (by omega)]
  | succ y ih =>
    intro col hy hfull
    rw [fallStep]
    split
    · next hc =>
      have : (col.getD (y + 1) none).isSome := by
        rw [List.getD_eq_getElem _ _ hy]
        exact hfull _ (List.getElem_mem hy)
      rw [hc] at this
      simp at this
    · rw [if_neg (by omega)]
      exact ih col (by omega) hfull

theorem fallColumns_id_of_full (b : Board) (hws : wellSized b) (hf : fullWH b) :
    fallColumns b = b := by
  have hmem := full_member b hws hf
  show { b with gems := b.gems.map fallColumn } = b
  have : b.gems.map fallColumn = b.gems := by
    have e : b.gems.map fallColumn = b.gems.map id := by
      apply List.map_congr_left
      intro col hcol
      rw [fallColumn]
      cases hl : col.length with
      | zero => rfl
      | succ n => exact fallStep_id_of_full n col (by omega) (hmem col hcol)
    rw [e, List.map_id]
  rw [this]

theorem refillColumn_id_of_full (x : Nat) :
    ∀ (n : Nat) (b : Board) (rng : List Nat) (nid : Nat),
      (∀ q, q < b.height → (cellN b x q).isSome) → n ≤ b.height →
      refillColumn x n (b, rng, nid) = some (b, rng, nid) := by
  intro n
  induction n with
  | zero => intro b rng nid _ _; rfl
  | succ n ih =>
    intro b rng nid hfull hn
    obtain ⟨g, hg⟩ := Option.isSome_iff_exists.mp (hfull (b.height - (n + 1)) (by omega))
    rw [refillColumn, hg]
    exact ih b rng nid hfull (by omega)

theorem refillColumns_id_of_full :
    ∀ (xs : List Nat) (b : Board) (rng : List Nat) (nid : Nat),
      (∀ x ∈ xs, x < b.width) → fullWH b →
      refillColumns xs (b, rng, nid) = some (b, rng, nid) := by
  intro xs
  induction xs with
  | nil => intro b rng nid _ _; rfl
  | cons x xs ih =>
    intro b rng nid hxs hf
    rw [refillColumns,
      refillColumn_id_of_full x b.height b rng nid
        (fun q hq => hf x (hxs x (by simp)) q hq) (le_refl _)]
    exact ih b rng nid (fun p hp => hxs p (by simp [hp])) hf

theorem processMatches_aux :
    ∀ (fuel : Nat) (st : GameState) (ms : List GemMatch) (st' : GameState),
      processMatchesFuel fuel st ms = some st' → wellSized st.board →
      findMatches st'.board = [] ∧ wellSized st'.board ∧ fullWH st'.board := by
  intro fuel
  induction fuel with
  | zero => intro st ms st' h _; exact absurd h (by simp [processMatchesFuel])
  | succ fuel ih =>
    intro st ms st' h hws
    rw [processMatchesFuel] at h
    split at h
    · exact absurd h (by simp)
    · next b rng nid heq =>
      have hws1 : wellSized (fallColumns (removeMatches ms st.board)) :=
        wellSized_fallColumns _ (wellSized_removeMatches ms st.board hws)
      obtain ⟨f1, _, _, f4⟩ :=
        refillBoard_full (fallColumns (removeMatches ms st.board)) st.rng st.nextId
          b rng nid heq hws1
      simp only at h
      split at h
      · next hz =>
        obtain rfl := Option.some_inj.mp h
        exact ⟨List.length_eq_zero.mp hz, f1, f4⟩
      · exact ih _ _ _ h f1

end Match3

/-- C1: after every completed cascade resolution, the board has no leftover
matches, and invoking the resolution again immediately is a no-op.  If
`processMatches` (with any recursion fuel, any randomness stream) returns a
final state from a well-sized board, then `findMatches` on the resulting
board is empty, and running `processMatches` again on that state — its match
argument being the (empty) fresh scan — returns the state unchanged in one
step: no cell changes, no randomness is consumed, no gem is created. -/
theorem cascade_resolution_clears_matches (fuel : Nat) (st : Match3.GameState)
    (ms : List Match3.GemMatch) (st' : Match3.GameState)
    (hws : Match3.wellSized st.board)
    (h : Match3.processMatchesFuel fuel st ms = some st') :
    Match3.findMatches st'.board = [] ∧
    ∀ g, Match3.processMatchesFuel (g + 1) st' [] = some st' := by
  obtain ⟨h1, h2, h3⟩ := Match3.processMatches_aux fuel st ms st' h hws
  refine ⟨h1, ?_⟩
  intro g
  rw [Match3.processMatchesFuel]
  have e1 : Match3.removeMatches [] st'.board = st'.board := rfl
  rw [e1, Match3.handleFalling, Match3.fallColumns_id_of_full _ h2 h3,
    Match3.refillBoard,
    Match3.refillColumns_id_of_full _ _ _ _ (fun x hx => List.mem_range.mp hx) h3]
  show (if (Match3.findMatches st'.board).length = 0
      then some (⟨st'.board, st'.rng, st'.nextId⟩ : Match3.GameState)
      else Match3.processMatchesFuel g ⟨st'.board, st'.rng, st'.nextId⟩
        (Match3.findMatches st'.board)) = some st'
  rw [h1]
  rfl

/-- C1 witness: one concrete cascade on the 3×3 board with a matched middle
row completes in `stC1r`, whose board scans clean, and a second invocation is
a no-op. -/
theorem cascade_resolution_clears_matches_witness :
    Match3.wellSized Match3.stC1.board ∧
    Match3.processMatchesFuel 5 Match3.stC1
      (Match3.findMatches Match3.stC1.board) = some Match3.stC1r ∧
    Match3.findMatches Match3.stC1r.board = [] ∧
    Match3.processMatchesFuel 1 Match3.stC1r [] = some Match3.stC1r :=
  ⟨by decide, by decide,
   (cascade_resolution_clears_matches 5 Match3.stC1
     (Match3.findMatches Match3.stC1.board) Match3.stC1r (by decide) (by decide)).1,
   (cascade_resolution_clears_matches 5 Match3.stC1
     (Match3.findMatches Match3.stC1.board) Match3.stC1r (by decide) (by decide)).2 0⟩

namespace Match3

theorem typesEq_refl (b : Board) : typesEq b b := ⟨rfl, rfl, fun _ _ => rfl⟩

theorem typesEq_trans {a b c : Board} (h1 : typesEq a b) (h2 : typesEq b c) :
    typesEq a c :=
  ⟨h1.1.trans h2.1, h1.2.1.trans h2.2.1,
   fun x y => (h1.2.2 x y).trans (h2.2.2 x y)⟩

theorem scanAux_length_congr (dir : String) :
    ∀ (cells cells' : List (Option Gem)),
      List.Forall₂ (fun c c' => c.map Gem.gemType = c'.map Gem.gemType) cells cells' →
      ∀ (acc acc' : List Gem) (cur : Option Nat), acc.length = acc'.length →
      (scanAux dir cells acc cur).length = (scanAux dir cells' acc' cur).length := by
  intro cells cells' hsim
  induction hsim with
  | nil =>
    intro acc acc' cur hlen
    simp only [scanAux]
    rw [hlen]
    split <;> rfl
  | cons hc htail ih =>
    next c c' rest rest' =>
    intro acc acc' cur hlen
    cases c with
    | none =>
      cases c' with
      | none =>
        simp only [scanAux, List.length_append]
        rw [hlen]
        congr 1
        · split <;> rfl
        · exact ih [] [] none rfl
      | some g' => simp [Option.map] at hc
    | some g =>
      cases c' with
      | none => simp [Option.map] at hc
      | some g' =>
        have hty : g.gemType = g'.gemType := by
          simpa [Option.map] using hc
        simp only [scanAux, hty]
        split
        · exact ih (acc ++ [g]) (acc' ++ [g']) cur (by simp [hlen])
        · simp only [List.length_append]
          rw [hlen]
          congr 1
          · split <;> rfl
          · exact ih [g] [g'] (some g'.gemType) rfl

theorem forall₂_map_list {α : Type} {R : Option Gem → Option Gem → Prop} :
    ∀ (l : List α) (f g : α → Option Gem), (∀ a ∈ l, R (f a) (g a)) →
      List.Forall₂ R (l.map f) (l.map g)
  | [], _, _, _ => List.Forall₂.nil
  | a :: t, f, g, h =>
    List.Forall₂.cons (h a (by simp))
      (forall₂_map_list t f g (fun x hx => h x (by simp [hx])))

theorem forall₂_map_range {R : Option Gem → Option Gem → Prop} (n : Nat)
    (f g : Nat → Option Gem) (h : ∀ a, a < n → R (f a) (g a)) :
    List.Forall₂ R ((List.range n).map f) ((List.range n).map g) :=
  forall₂_map_list (List.range n) f g (fun a ha => h a (List.mem_range.mp ha))

theorem flatMap_length_congr {α : Type} (l : List α)
    (f g : α → List GemMatch) (h : ∀ a ∈ l, (f a).length = (g a).length) :
    (l.flatMap f).length = (l.flatMap g).length := by
  induction l with
  | nil => rfl
  | cons a t ih =>
    simp only [List.flatMap_cons, List.length_append]
    rw [h a (by simp), ih (fun a ha => h a (by simp [ha]))]

theorem rawMatches_length_congr (b b' : Board) (h : typesEq b b') :
    (rawMatches b).length = (rawMatches b').length := by
  obtain ⟨hw, hh, hcell⟩ := h
  unfold rawMatches
  simp only [List.length_append]
  rw [hw, hh]
  congr 1
  · apply flatMap_length_congr
    intro y _
    apply scanAux_length_congr "horizontal" (rowCells b y) (rowCells b' y)
    · unfold rowCells
      rw [hw]
      exact forall₂_map_range _ _ _ (fun a _ => hcell a y)
    · rfl
  · apply flatMap_length_congr
    intro x _
    apply scanAux_length_congr "vertical" (colCells b x) (colCells b' x)
    · unfold colCells
      rw [hh]
      exact forall₂_map_range _ _ _ (fun a _ => hcell x a)
    · rfl

theorem consolidateStep_out_mono (b : Board) (mm : MatchMap)
    (st : List GemMatch × List (Int × Int)) (m : GemMatch) :
    st.1.length ≤ (consolidateStep b mm st m).1.length := by
  obtain ⟨out, processed⟩ := st
  unfold consolidateStep
  dsimp only
  split
  · exact Nat.le_refl _
  · split <;> simp

theorem consolidateFold_out_mono (b : Board) (mm : MatchMap) :
    ∀ (ms : List GemMatch) (st : List GemMatch × List (Int × Int)),
      st.1.length ≤ (ms.foldl (consolidateStep b mm) st).1.length := by
  intro ms
  induction ms with
  | nil => intro st; exact le_refl _
  | cons m ms ih =>
    intro st
    exact (consolidateStep_out_mono b mm st m).trans (ih _)

theorem consolidateMatches_ne_nil (b : Board) (ms : List GemMatch)
    (h : ms ≠ []) : 0 < (consolidateMatches b ms).length := by
  obtain ⟨m, rest, rfl⟩ := List.exists_cons_of_ne_nil h
  unfold consolidateMatches
  rw [List.foldl_cons]
  refine lt_of_lt_of_le ?_ (consolidateFold_out_mono _ _ rest _)
  unfold consolidateStep
  dsimp only
  rw [if_neg (by simp)]
  split <;> simp

theorem consolidateMatches_nil (b : Board) : consolidateMatches b [] = [] := rfl

theorem findMatches_pos_iff (b : Board) :
    0 < (findMatches b).length ↔ rawMatches b ≠ [] := by
  constructor
  · intro h hraw
    rw [findMatches, hraw, consolidateMatches_nil] at h
    simp at h
  · intro h
    exact consolidateMatches_ne_nil b (rawMatches b) h

end Match3

namespace Match3

theorem isSome_getD_lt {α : Type} (l : List (Option α)) (i : Nat)
    (h : (l.getD i none).isSome) : i < l.length := by
  by_contra hc
  rw [List.getD_eq_default _ _ (le_of_not_lt hc)] at h
  simp at h

theorem cellI_natCast (b : Board) (x y : Nat) :
    cellI b (x : Int) (y : Int) = cellN b x y := by
  unfold cellI
  rw [if_pos ⟨Int.natCast_nonneg x, Int.natCast_nonneg y⟩]
  simp [Int.toNat_natCast]

theorem cellN_self_of_ws (b : Board) (x y : Nat) (v : Option Gem)
    (hws : wellSized b) (hx : x < b.width) (hy : y < b.height) :
    cellN (setCellI b (x : Int) (y : Int) v) x y = v := by
  apply cellN_setCellI_self
  · obtain ⟨hw, _⟩ := hws; omega
  · rw [colLen_of_wellSized b x hws hx]; exact hy

theorem fullWH_setCellI_some (b : Board) (x y : Nat) (g : Gem)
    (hf : fullWH b) : fullWH (setCellI b (x : Int) (y : Int) (some g)) := by
  intro p hp q hq
  rw [setCellI_width] at hp
  rw [setCellI_height] at hq
  by_cases hpq : x = p ∧ y = q
  · obtain ⟨rfl, rfl⟩ := hpq
    by_cases hxl : x < b.gems.length
    · by_cases hyl : y < (b.gems.getD x []).length
      · rw [cellN_setCellI_self b x y (some g) hxl hyl]; rfl
      · unfold setCellI
        rw [if_pos ⟨Int.natCast_nonneg x, Int.natCast_nonneg y⟩]
        unfold cellN
        simp only [Int.toNat_natCast]
        rw [getD_set_self, if_pos hxl,
          List.set_eq_of_length_le (le_of_not_lt hyl)]
        exact hf x hp y hq
    · unfold setCellI
      rw [if_pos ⟨Int.natCast_nonneg x, Int.natCast_nonneg y⟩]
      unfold cellN
      simp only [Int.toNat_natCast]
      rw [List.set_eq_of_length_le (le_of_not_lt hxl)]
      exact hf x hp y hq
  · rw [cellN_setCellI_ne b x y (some g) p q hpq]
    exact hf p hp q hq

theorem typesEq_setCellI_sameType (b : Board) (x y : Nat) (g : Gem)
    (hty : (cellN b x y).map Gem.gemType = some g.gemType) :
    typesEq (setCellI b (x : Int) (y : Int) (some g)) b := by
  have hsome : (cellN b x y).isSome := by
    cases hc : cellN b x y with
    | none => rw [hc] at hty; simp [Option.map] at hty
    | some _ => rfl
  have hyl : y < (b.gems.getD x []).length := isSome_getD_lt _ _ hsome
  have hxl : x < b.gems.length := by
    by_contra hc
    unfold cellN at hsome
    rw [List.getD_eq_default _ _ (le_of_not_lt hc)] at hsome
    simp at hsome
  refine ⟨setCellI_width _ _ _ _, setCellI_height _ _ _ _, ?_⟩
  intro p q
  by_cases hpq : x = p ∧ y = q
  · obtain ⟨rfl, rfl⟩ := hpq
    rw [cellN_setCellI_self b x y (some g) hxl hyl, hty]
    rfl
  · rw [cellN_setCellI_ne b x y (some g) p q hpq]

theorem raw_ne_nil_congr (b b' : Board) (h : typesEq b b') :
    rawMatches b ≠ [] ↔ rawMatches b' ≠ [] := by
  have hlen := rawMatches_length_congr b b' h
  rw [← List.length_pos, ← List.length_pos, hlen]

end Match3

namespace Match3

theorem wouldCreateMatch_full (b : Board) (px py : Nat) (qx qy : Int)
    (hws : wellSized b) (hf : fullWH b) (hpx : px < b.width) (hpy : py < b.height)
    (hq : isValidGridPosition b qx qy = true)
    (hne : ¬ (px = qx.toNat ∧ py = qy.toNat)) :
    ∃ (r : Bool) (b2 : Board),
      wouldCreateMatch b ((px : Int), (py : Int)) (qx, qy) = some (r, b2) ∧
      wellSized b2 ∧ fullWH b2 ∧ typesEq b2 b ∧ (r = true ↔ rawMatches b ≠ []) := by
  simp only [isValidGridPosition, Bool.and_eq_true, decide_eq_true_eq] at hq
  have h0x : 0 ≤ qx := by omega
  have h0y : 0 ≤ qy := by omega
  have hqx : qx = (qx.toNat : Int) := (Int.toNat_of_nonneg h0x).symm
  have hqy : qy = (qy.toNat : Int) := (Int.toNat_of_nonneg h0y).symm
  have hnx : qx.toNat < b.width := by omega
  have hny : qy.toNat < b.height := by omega
  obtain ⟨g1, hg1N⟩ := Option.isSome_iff_exists.mp (hf px hpx py hpy)
  obtain ⟨g2, hg2N⟩ := Option.isSome_iff_exists.mp (hf qx.toNat hnx qy.toNat hny)
  have hg1 : cellI b (px : Int) (py : Int) = some g1 := by
    rw [cellI_natCast]; exact hg1N
  have hg2 : cellI b qx qy = some g2 := by
    rw [hqx, hqy, cellI_natCast]; exact hg2N
  rw [hqx, hqy]
  unfold wouldCreateMatch
  dsimp only
  rw [← hqx, ← hqy, hg1, hg2, hqx, hqy]
  have hne' : ¬ (qx.toNat = px ∧ qy.toNat = py) :=
    fun hh => hne ⟨hh.1.symm, hh.2.symm⟩
  have t1 : typesEq (setCellI b (px : Int) (py : Int)
      (some { g1 with gridX := g2.gridX, gridY := g2.gridY })) b := by
    apply typesEq_setCellI_sameType
    rw [hg1N]; rfl
  have t2 : typesEq
      (setCellI (setCellI b (px : Int) (py : Int)
        (some { g1 with gridX := g2.gridX, gridY := g2.gridY }))
        (qx.toNat : Int) (qy.toNat : Int)
        (some { g2 with gridX := g1.gridX, gridY := g1.gridY }))
      (setCellI b (px : Int) (py : Int)
        (some { g1 with gridX := g2.gridX, gridY := g2.gridY })) := by
    apply typesEq_setCellI_sameType
    rw [cellN_setCellI_ne b px py _ qx.toNat qy.toNat hne, hg2N]
    rfl
  have hws1 := wellSized_setCellI b (px : Int) (py : Int)
    (some { g1 with gridX := g2.gridX, gridY := g2.gridY }) hws
  have hws2 := wellSized_setCellI _ (qx.toNat : Int) (qy.toNat : Int)
    (some { g2 with gridX := g1.gridX, gridY := g1.gridY }) hws1
  have hcellS1 : cellN (setCellI
      (setCellI b (px : Int) (py : Int)
        (some { g1 with gridX := g2.gridX, gridY := g2.gridY }))
      (qx.toNat : Int) (qy.toNat : Int)
      (some { g2 with gridX := g1.gridX, gridY := g1.gridY })) px py =
      some { g1 with gridX := g2.gridX, gridY := g2.gridY } := by
    rw [cellN_setCellI_ne _ _ _ _ _ _ hne']
    exact cellN_self_of_ws b px py _ hws hpx hpy
  have hcellS2 : cellN (setCellI
      (setCellI b (px : Int) (py : Int)
        (some { g1 with gridX := g2.gridX, gridY := g2.gridY }))
      (qx.toNat : Int) (qy.toNat : Int)
      (some { g2 with gridX := g1.gridX, gridY := g1.gridY })) qx.toNat qy.toNat =
      some { g2 with gridX := g1.gridX, gridY := g1.gridY } := by
    apply cellN_self_of_ws _ _ _ _ hws1
    · rw [setCellI_width]; exact hnx
    · rw [setCellI_height]; exact hny
  have t3 : typesEq
      (setCellI (setCellI
        (setCellI b (px : Int) (py : Int)
          (some { g1 with gridX := g2.gridX, gridY := g2.gridY }))
        (qx.toNat : Int) (qy.toNat : Int)
        (some { g2 with gridX := g1.gridX, gridY := g1.gridY }))
        (px : Int) (py : Int)
        (some { g1 with gridX := g1.gridX, gridY := g1.gridY }))
      (setCellI (setCellI b (px : Int) (py : Int)
        (some { g1 with gridX := g2.gridX, gridY := g2.gridY }))
        (qx.toNat : Int) (qy.toNat : Int)
        (some { g2 with gridX := g1.gridX, gridY := g1.gridY })) := by
    apply typesEq_setCellI_sameType
    rw [hcellS1]; rfl
  refine ⟨_, _, rfl, ?_, ?_, ?_, ?_⟩
  · exact wellSized_setCellI _ _ _ _ (wellSized_setCellI _ _ _ _ hws2)
  · exact fullWH_setCellI_some _ _ _ _ (fullWH_setCellI_some _ _ _ _
      (fullWH_setCellI_some _ _ _ _ (fullWH_setCellI_some _ _ _ _ hf)))
  · refine typesEq_trans (typesEq_trans ?_ t3) (typesEq_trans t2 t1)
    apply typesEq_setCellI_sameType
    rw [cellN_setCellI_ne _ _ _ _ _ _ hne, hcellS2]
    rfl
  · rw [decide_eq_true_eq, findMatches_pos_iff]
    exact raw_ne_nil_congr _ _ (typesEq_trans t2 t1)

end Match3

namespace Match3

theorem isValid_congr (b b' : Board) (hw : b.width = b'.width)
    (hh : b.height = b'.height) (x y : Int) :
    isValidGridPosition b x y = isValidGridPosition b' x y := by
  unfold isValidGridPosition
  rw [hw, hh]

theorem probeList_mem (b : Board) :
    ∀ pr ∈ probeList b,
      pr.1.1 < b.width ∧ pr.1.2 < b.height ∧
      isValidGridPosition b pr.2.1 pr.2.2 = true ∧
      ¬ (pr.1.1 = pr.2.1.toNat ∧ pr.1.2 = pr.2.2.toNat) := by
  rintro ⟨⟨px, py⟩, qx, qy⟩ hpr
  unfold probeList at hpr
  rw [List.mem_flatMap] at hpr
  obtain ⟨x, hx, hpr⟩ := hpr
  rw [List.mem_flatMap] at hpr
  obtain ⟨y, hy, hpr⟩ := hpr
  rw [List.mem_map] at hpr
  obtain ⟨q, hq, hpr⟩ := hpr
  unfold adjacentPositions at hq
  rw [List.mem_map] at hq
  obtain ⟨d, hd, rfl⟩ := hq
  rw [List.mem_filter] at hd
  obtain ⟨hdmem, hdval⟩ := hd
  simp only [Prod.mk.injEq] at hpr
  obtain ⟨⟨rfl, rfl⟩, h3, h4⟩ := hpr
  subst h3
  subst h4
  rw [List.mem_range] at hx hy
  refine ⟨hx, hy, hdval, ?_⟩
  simp only [isValidGridPosition, Bool.and_eq_true, decide_eq_true_eq] at hdval
  intro ⟨ha, hb⟩
  dsimp only at ha hb
  have hd1 : d.1 = 0 := by omega
  have hd2 : d.2 = 0 := by omega
  simp only [adjacentDirs, List.mem_cons, List.not_mem_nil, or_false] at hdmem
  rcases hdmem with rfl | rfl | rfl | rfl <;> simp at hd1 hd2

theorem hasValidMovesAux_spec :
    ∀ (probes : List ((Nat × Nat) × (Int × Int))) (b b₀ : Board),
      wellSized b → fullWH b → typesEq b b₀ →
      (∀ pr ∈ probes,
        pr.1.1 < b₀.width ∧ pr.1.2 < b₀.height ∧
        isValidGridPosition b₀ pr.2.1 pr.2.2 = true ∧
        ¬ (pr.1.1 = pr.2.1.toNat ∧ pr.1.2 = pr.2.2.toNat)) →
      ∃ r b', hasValidMovesAux probes b = some (r, b') ∧
        wellSized b' ∧ fullWH b' ∧ typesEq b' b₀ ∧
        (r = true → rawMatches b₀ ≠ []) ∧
        (r = false → probes = [] ∨ rawMatches b₀ = []) := by
  intro probes
  induction probes with
  | nil =>
    intro b b₀ hws hf hte _
    exact ⟨false, b, rfl, hws, hf, hte, fun h => by simp at h, fun _ => Or.inl rfl⟩
  | cons pr rest ih =>
    obtain ⟨⟨px, py⟩, qx, qy⟩ := pr
    intro b b₀ hws hf hte hprobes
    obtain ⟨hb1, hb2, hbv, hbne⟩ :=
      hprobes ((px, py), (qx, qy)) (List.mem_cons_self _ _)
    obtain ⟨r1, b2, heq, ws2, f2, te2, hiff⟩ :=
      wouldCreateMatch_full b px py qx qy hws hf
        (by rw [hte.1]; exact hb1) (by rw [hte.2.1]; exact hb2)
        (by rw [isValid_congr b b₀ hte.1 hte.2.1]; exact hbv) hbne
    rw [hasValidMovesAux, heq]
    cases r1 with
    | true =>
      refine ⟨true, b2, by rfl, ws2, f2, typesEq_trans te2 hte, ?_, ?_⟩
      · intro _
        rw [← raw_ne_nil_congr b b₀ hte]
        exact hiff.mp rfl
      · intro h; simp at h
    | false =>
      have hraw : rawMatches b₀ = [] := by
        by_contra hc
        have : rawMatches b ≠ [] := (raw_ne_nil_congr b b₀ hte).mpr hc
        have := hiff.mpr this
        simp at this
      obtain ⟨r, b', heq', ws', f', te', h1, h2⟩ :=
        ih b2 b₀ ws2 f2 (typesEq_trans te2 hte)
          (fun p hp => hprobes p (by simp [hp]))
      exact ⟨r, b', heq', ws', f', te', h1, fun _ => Or.inr hraw⟩

theorem reshuffleCond_spec (b : Board) (hws : wellSized b) (hf : fullWH b) :
    ∃ b', reshuffleCond b = some (true, b') ∧ wellSized b' ∧ fullWH b' := by
  obtain ⟨r, b', heq, ws', f', te', h1, _⟩ :=
    hasValidMovesAux_spec (probeList b) b b hws hf (typesEq_refl b) (probeList_mem b)
  rw [reshuffleCond, hasValidMoves, heq]
  dsimp only
  cases r with
  | false => exact ⟨b', rfl, ws', f'⟩
  | true =>
    refine ⟨b', ?_, ws', f'⟩
    have hpos : 0 < (findMatches b').length :=
      (findMatches_pos_iff b').mpr ((raw_ne_nil_congr b' b te').mpr (h1 rfl))
    rw [if_pos rfl, decide_eq_true hpos]

end Match3

namespace Match3

theorem fullWH_setCellI_some_int (b : Board) (x y : Int) (g : Gem)
    (hf : fullWH b) : fullWH (setCellI b x y (some g)) := by
  by_cases hpos : 0 ≤ x ∧ 0 ≤ y
  · have hx : x = (x.toNat : Int) := (Int.toNat_of_nonneg hpos.1).symm
    have hy : y = (y.toNat : Int) := (Int.toNat_of_nonneg hpos.2).symm
    rw [hx, hy]
    exact fullWH_setCellI_some b x.toNat y.toNat g hf
  · unfold setCellI
    rw [if_neg hpos]
    exact hf

theorem shuffleSwap_preserves (st : Board × List (Nat × Nat)) (i j : Nat)
    (h1 : wellSized st.1) (h2 : fullWH st.1) :
    wellSized (shuffleSwap st i j).1 ∧ fullWH (shuffleSwap st i j).1 := by
  obtain ⟨b, posOf⟩ := st
  unfold shuffleSwap
  dsimp only at h1 h2 ⊢
  split
  · exact ⟨wellSized_setCellI _ _ _ _ (wellSized_setCellI _ _ _ _ h1),
      fullWH_setCellI_some_int _ _ _ _ (fullWH_setCellI_some_int _ _ _ _ h2)⟩
  · exact ⟨h1, h2⟩

theorem shuffleLoop_preserves :
    ∀ (i : Nat) (st : Board × List (Nat × Nat)) (rng : List Nat),
      wellSized st.1 → fullWH st.1 →
      wellSized (shuffleLoop st rng i).1.1 ∧ fullWH (shuffleLoop st rng i).1.1 := by
  intro i
  induction i with
  | zero => intro st rng h1 h2; exact ⟨h1, h2⟩
  | succ i ih =>
    intro st rng h1 h2
    rw [shuffleLoop]
    obtain ⟨p1, p2⟩ := shuffleSwap_preserves st (i + 1) (rng.headD 0 % (i + 2)) h1 h2
    exact ih _ _ p1 p2

theorem shuffleGems_preserves (b : Board) (rng : List Nat)
    (h1 : wellSized b) (h2 : fullWH b) :
    wellSized (shuffleGems b rng).1 ∧ fullWH (shuffleGems b rng).1 := by
  rw [shuffleGems]
  dsimp only
  split
  · exact ⟨h1, h2⟩
  · exact shuffleLoop_preserves _ _ _ h1 h2

end Match3

/-- C7: the reshuffle retry loop never exits.  On every fully populated board
(of any size, with any randomness stream, under any finite iteration budget)
the `do … while` condition of `reshuffleBoard` is true after every shuffle —
when the board has no matches, `hasValidMoves` returns false because each
probe's match check reads the un-swapped grid array, and when the board has
matches the second disjunct holds — so the loop model returns `none` for
every fuel: the source loop, which has no attempt bound and no
`UnsolvableBoard` escape, retries forever. -/
theorem reshuffleLoop_never_terminates :
    ∀ (fuel : Nat) (rng : List Nat) (b : Match3.Board),
      Match3.wellSized b → Match3.fullWH b →
      Match3.reshuffleLoop fuel rng b = none := by
  intro fuel
  induction fuel with
  | zero => intro rng b _ _; rfl
  | succ fuel ih =>
    intro rng b h1 h2
    rw [Match3.reshuffleLoop]
    obtain ⟨p1, p2⟩ := Match3.shuffleGems_preserves b rng h1 h2
    obtain ⟨b'', hc, ws'', f''⟩ := Match3.reshuffleCond_spec _ p1 p2
    rw [hc]
    dsimp only
    exact ih _ _ ws'' f''

/-- C7 witness: the loop on the concrete full 2×2 board `bC3` exits within no
finite budget. -/
theorem reshuffleLoop_never_terminates_witness :
    Match3.wellSized Match3.bC3 ∧ Match3.fullWH Match3.bC3 ∧
    Match3.reshuffleLoop 3 [5, 3, 2, 1, 0, 1, 2, 3] Match3.bC3 = none :=
  ⟨by decide, by decide,
   reshuffleLoop_never_terminates 3 [5, 3, 2, 1, 0, 1, 2, 3] Match3.bC3
     (by decide) (by decide)⟩

/-- C10 counterexample: on the board `b10` (a type-0 cross touching a type-1
vertical run), `findMatches` returns a consolidated match containing gems of
two different gemTypes — the connected-component flood of
`consolidateMatches` crosses the type boundary between adjacent runs — so not
every Match consists of gems of a single shared type. -/
theorem findMatches_mixed_type_match :
    ∃ m ∈ Match3.findMatches Match3.b10, ∃ g ∈ m.gems, ∃ h ∈ m.gems,
      g.gemType ≠ h.gemType := by decide

namespace Match3

theorem scanAux_char (dir : String) (f : Nat → Option Gem) :
    ∀ (n s : Nat) (acc : List Gem) (cur : Option Nat) (x0 : Nat),
      s = x0 + acc.length →
      (∀ i, (h : i < acc.length) → f (x0 + i) = some (acc.get ⟨i, h⟩)) →
      (acc ≠ [] → ∃ t, cur = some t ∧ ∀ g ∈ acc, g.gemType = t) →
      ∀ m ∈ scanAux dir ((List.range' s n).map f) acc cur,
        m.type = dir ∧ 3 ≤ m.gems.length ∧
        (∃ t, ∀ g ∈ m.gems, g.gemType = t) ∧
        (∃ z, ∀ i, (h : i < m.gems.length) → f (z + i) = some (m.gems.get ⟨i, h⟩)) := by
  intro n
  induction n with
  | zero =>
    intro s acc cur x0 hs hchar htype m hm
    rw [List.range'_zero, List.map_nil] at hm
    simp only [scanAux] at hm
    split at hm
    · next hlen =>
      rw [List.mem_singleton] at hm
      subst hm
      refine ⟨rfl, hlen, ?_, x0, hchar⟩
      obtain ⟨t, _, ht⟩ := htype (by
        intro hnil
        rw [hnil] at hlen
        simp at hlen)
      exact ⟨t, ht⟩
    · simp at hm
  | succ n ih =>
    intro s acc cur x0 hs hchar htype m hm
    rw [List.range'_succ, List.map_cons] at hm
    simp only [scanAux] at hm
    have hemit : m ∈ (if 3 ≤ acc.length then [(⟨acc, dir⟩ : GemMatch)] else []) →
        m.type = dir ∧ 3 ≤ m.gems.length ∧
        (∃ t, ∀ g ∈ m.gems, g.gemType = t) ∧
        (∃ z, ∀ i, (h : i < m.gems.length) → f (z + i) = some (m.gems.get ⟨i, h⟩)) := by
      intro hm'
      split at hm'
      · next hlen =>
        rw [List.mem_singleton] at hm'
        subst hm'
        refine ⟨rfl, hlen, ?_, x0, hchar⟩
        obtain ⟨t, _, ht⟩ := htype (by
          intro hnil
          rw [hnil] at hlen
          simp at hlen)
        exact ⟨t, ht⟩
      · simp at hm'
    split at hm
    · next g hg =>
      split at hm
      · next hcur =>
        refine ih (s + 1) (acc ++ [g]) cur x0 (by simp [hs]; omega) ?_ ?_ m hm
        · intro i hi
          rw [List.length_append, List.length_singleton] at hi
          by_cases hilt : i < acc.length
          · rw [List.get_append _ hilt]
            exact hchar i hilt
          · have hieq : i = acc.length := by omega
            subst hieq
            rw [← hs, hg]
            congr 1
            simp
        · intro _
          obtain ⟨t, hcur2⟩ : ∃ t, cur = some t := by
            cases acc with
            | nil => exact ⟨g.gemType, hcur⟩
            | cons a tl =>
              obtain ⟨t, ht1, _⟩ := htype (by simp)
              exact ⟨t, ht1⟩
          refine ⟨t, hcur2, ?_⟩
          intro g' hg'
          rw [List.mem_append, List.mem_singleton] at hg'
          rcases hg' with hg' | rfl
          · cases acc with
            | nil => simp at hg'
            | cons a tl =>
              obtain ⟨t2, ht1, ht2⟩ := htype (by simp)
              rw [hcur2] at ht1
              obtain rfl := Option.some_inj.mp ht1
              exact ht2 g' hg'
          · rw [hcur2] at hcur
            exact (Option.some_inj.mp hcur).symm
      · rw [List.mem_append] at hm
        rcases hm with hm | hm
        · exact hemit hm
        · refine ih (s + 1) [g] (some g.gemType) s (by simp) ?_ ?_ m hm
          · intro i hi
            rw [List.length_singleton] at hi
            have hieq : i = 0 := by omega
            subst hieq
            simpa using hg
          · intro _
            exact ⟨g.gemType, rfl, by simp⟩
    · next hg =>
      rw [List.mem_append] at hm
      rcases hm with hm | hm
      · exact hemit hm
      · exact ih (s + 1) [] none (s + 1) (by simp) (by intro i hi; simp at hi)
          (by intro h; simp at h) m hm

end Match3

namespace Match3

theorem scanAux_disjoint (dir : String) (f : Nat → Option Gem)
    (hinj : ∀ i j g, f i = some g → f j = some g → i = j) :
    ∀ (n s : Nat) (acc : List Gem) (cur : Option Nat) (x0 : Nat),
      s = x0 + acc.length →
      (∀ i, (h : i < acc.length) → f (x0 + i) = some (acc.get ⟨i, h⟩)) →
      (∀ m ∈ scanAux dir ((List.range' s n).map f) acc cur, ∀ g ∈ m.gems,
        ∃ i, x0 ≤ i ∧ f i = some g) ∧
      List.Pairwise (fun m1 m2 => ∀ g ∈ m1.gems, g ∉ m2.gems)
        (scanAux dir ((List.range' s n).map f) acc cur) := by
  intro n
  induction n with
  | zero =>
    intro s acc cur x0 hs hchar
    rw [List.range'_zero, List.map_nil]
    simp only [scanAux]
    constructor
    · intro m hm g hg
      split at hm
      · rw [List.mem_singleton] at hm
        subst hm
        obtain ⟨⟨i, hi⟩, rfl⟩ := List.mem_iff_get.mp hg
        exact ⟨x0 + i, by omega, hchar i hi⟩
      · simp at hm
    · split
      · exact List.pairwise_singleton _ _
      · exact List.Pairwise.nil
  | succ n ih =>
    intro s acc cur x0 hs hchar
    rw [List.range'_succ, List.map_cons]
    simp only [scanAux]
    have hacc_idx : ∀ g ∈ acc, ∃ i, x0 ≤ i ∧ i < s ∧ f i = some g := by
      intro g hg
      obtain ⟨⟨i, hi⟩, rfl⟩ := List.mem_iff_get.mp hg
      exact ⟨x0 + i, by omega, by omega, hchar i hi⟩
    split
    · next g hg =>
      split
      · next hcur =>
        apply ih (s + 1) (acc ++ [g]) cur x0 (by simp; omega)
        intro i hi
        rw [List.length_append, List.length_singleton] at hi
        by_cases hilt : i < acc.length
        · rw [List.get_append _ hilt]
          exact hchar i hilt
        · have hieq : i = acc.length := by omega
          subst hieq
          rw [← hs, hg]
          congr 1
          simp
      · have hrec := ih (s + 1) [g] (some g.gemType) s (by simp)
          (by
            intro i hi
            rw [List.length_singleton] at hi
            have hieq : i = 0 := by omega
            subst hieq
            simpa using hg)
        constructor
        · intro m hm g' hg'
          rw [List.mem_append] at hm
          rcases hm with hm | hm
          · split at hm
            · rw [List.mem_singleton] at hm
              subst hm
              obtain ⟨i, hi1, _, hi3⟩ := hacc_idx g' hg'
              exact ⟨i, hi1, hi3⟩
            · simp at hm
          · obtain ⟨i, hi1, hi2⟩ := hrec.1 m hm g' hg'
            exact ⟨i, by omega, hi2⟩
        · rw [List.pairwise_append]
          refine ⟨?_, hrec.2, ?_⟩
          · split
            · exact List.pairwise_singleton _ _
            · exact List.Pairwise.nil
          · intro m1 hm1 m2 hm2 g' hg' hg2
            split at hm1
            · rw [List.mem_singleton] at hm1
              subst hm1
              obtain ⟨i, _, hilt, hif⟩ := hacc_idx g' hg'
              obtain ⟨j, hj1, hj2⟩ := hrec.1 m2 hm2 g' hg2
              have := hinj i j g' hif hj2
              omega
            · simp at hm1
    · next hg =>
      have hrec := ih (s + 1) [] none (s + 1) (by simp)
        (by intro i hi; simp at hi)
      constructor
      · intro m hm g' hg'
        rw [List.mem_append] at hm
        rcases hm with hm | hm
        · split at hm
          · rw [List.mem_singleton] at hm
            subst hm
            obtain ⟨i, hi1, _, hi3⟩ := hacc_idx g' hg'
            exact ⟨i, hi1, hi3⟩
          · simp at hm
        · obtain ⟨i, hi1, hi2⟩ := hrec.1 m hm g' hg'
          exact ⟨i, by omega, hi2⟩
      · rw [List.pairwise_append]
        refine ⟨?_, hrec.2, ?_⟩
        · split
          · exact List.pairwise_singleton _ _
          · exact List.Pairwise.nil
        · intro m1 hm1 m2 hm2 g' hg' hg2
          split at hm1
          · rw [List.mem_singleton] at hm1
            subst hm1
            obtain ⟨i, _, hilt, hif⟩ := hacc_idx g' hg'
            obtain ⟨j, hj1, hj2⟩ := hrec.1 m2 hm2 g' hg2
            have := hinj i j g' hif hj2
            omega
          · simp at hm1

end Match3

namespace Match3

theorem matchMapGet_cons (k0 : Int × Int) (e : MatchMapEntry) (rest : MatchMap)
    (k : Int × Int) :
    matchMapGet ((k0, e) :: rest) k = if k0 = k then some e else matchMapGet rest k := by
  unfold matchMapGet
  by_cases h : k0 = k
  · rw [List.find?_cons_of_pos _ (by simp [h]), if_pos h]
    rfl
  · rw [List.find?_cons_of_neg _ (by simp [h]), if_neg h]

theorem tsLen_cons (k0 : Int × Int) (g0 : Gem) (tys : List String)
    (rest : MatchMap) (k : Int × Int) :
    tsLen ((k0, (g0, tys)) :: rest) k =
      if k0 = k then tys.length else tsLen rest k := by
  unfold tsLen
  rw [matchMapGet_cons]
  by_cases h : k0 = k
  · rw [if_pos h, if_pos h]
  · rw [if_neg h, if_neg h]

theorem tsLen_matchMapAdd :
    ∀ (mm : MatchMap) (g : Gem) (ty : String) (k : Int × Int),
      tsLen (matchMapAdd mm g ty) k =
        tsLen mm k + (if gemKey g = k then 1 else 0)
  | [], g, ty, k => by
    unfold matchMapAdd
    rw [tsLen_cons]
    by_cases h : gemKey g = k
    · rw [if_pos h, if_pos h]
      rfl
    · rw [if_neg h, if_neg h]
      rfl
  | (k0, (g0, tys0)) :: rest, g, ty, k => by
    unfold matchMapAdd
    by_cases h1 : k0 = gemKey g
    · rw [if_pos h1, tsLen_cons, tsLen_cons]
      by_cases h2 : k0 = k
      · rw [if_pos h2, if_pos h2, List.length_append, List.length_singleton,
          if_pos (h1.symm.trans h2)]
      · rw [if_neg h2, if_neg h2, if_neg (fun hh => h2 (h1.trans hh))]
        omega
    · rw [if_neg h1, tsLen_cons, tsLen_cons, tsLen_matchMapAdd rest g ty k]
      by_cases h2 : k0 = k
      · rw [if_pos h2, if_pos h2, if_neg (fun hh => h1 (h2.trans hh.symm))]
        omega
      · rw [if_neg h2, if_neg h2]

theorem tsLen_foldAdd (ty : String) :
    ∀ (gs : List Gem) (mm : MatchMap) (k : Int × Int),
      tsLen (gs.foldl (fun acc g => matchMapAdd acc g ty) mm) k =
        tsLen mm k + gs.countP (fun g => decide (gemKey g = k))
  | [], mm, k => by simp
  | g :: gs, mm, k => by
    rw [List.foldl_cons, tsLen_foldAdd ty gs (matchMapAdd mm g ty) k,
      tsLen_matchMapAdd, List.countP_cons]
    by_cases h : gemKey g = k
    · simp [h]
      omega
    · simp [h]

theorem tsLen_buildFold :
    ∀ (ms : List GemMatch) (mm : MatchMap) (k : Int × Int),
      tsLen (ms.foldl
        (fun acc m => m.gems.foldl (fun acc g => matchMapAdd acc g m.type) acc) mm) k =
      tsLen mm k +
        (ms.map (fun m => m.gems.countP (fun g => decide (gemKey g = k)))).sum
  | [], mm, k => by simp
  | m :: ms, mm, k => by
    rw [List.foldl_cons, tsLen_buildFold ms _ k, tsLen_foldAdd, List.map_cons,
      List.sum_cons]
    omega

theorem tsLen_buildMatchMap (ms : List GemMatch) (k : Int × Int) :
    tsLen (buildMatchMap ms) k =
      (ms.map (fun m => m.gems.countP (fun g => decide (gemKey g = k)))).sum := by
  unfold buildMatchMap
  rw [tsLen_buildFold]
  have h0 : tsLen [] k = 0 := by simp [tsLen, matchMapGet]
  omega

theorem sum_pos_exists {α : Type} :
    ∀ (l : List α) (f : α → Nat), 0 < (l.map f).sum → ∃ a ∈ l, 0 < f a
  | [], f, h => by simp at h
  | a :: t, f, h => by
    rw [List.map_cons, List.sum_cons] at h
    by_cases ha : 0 < f a
    · exact ⟨a, by simp, ha⟩
    · obtain ⟨b, hb, hfb⟩ := sum_pos_exists t f (by omega)
      exact ⟨b, by simp [hb], hfb⟩

theorem matchMapHas_of_mem (ms : List GemMatch) (m : GemMatch) (g : Gem)
    (hm : m ∈ ms) (hg : g ∈ m.gems) :
    matchMapHas (buildMatchMap ms) (gemKey g) = true := by
  have hpos : 0 < tsLen (buildMatchMap ms) (gemKey g) := by
    rw [tsLen_buildMatchMap]
    have hcount : 0 < m.gems.countP (fun g' => decide (gemKey g' = gemKey g)) := by
      rw [List.countP_pos]
      exact ⟨g, hg, by simp⟩
    have hmem : m.gems.countP (fun g' => decide (gemKey g' = gemKey g)) ∈
        ms.map (fun m => m.gems.countP (fun g' => decide (gemKey g' = gemKey g))) :=
      List.mem_map.mpr ⟨m, hm, rfl⟩
    have := List.single_le_sum (fun (x : Nat) _ => Nat.zero_le x) _ hmem
    omega
  unfold tsLen at hpos
  unfold matchMapHas
  split at hpos
  · next heq => rw [heq]; rfl
  · simp at hpos

theorem countP_le_one_of_unique {α : Type} (p : α → Bool) :
    ∀ (l : List α), l.Nodup → (∀ a ∈ l, ∀ b ∈ l, p a = true → p b = true → a = b) →
      l.countP p ≤ 1
  | [], _, _ => by simp
  | a :: t, hnd, huniq => by
    rw [List.countP_cons]
    rw [List.nodup_cons] at hnd
    by_cases hpa : p a = true
    · have ht : t.countP p = 0 := by
        rw [List.countP_eq_zero]
        intro b hb hpb
        have := huniq a (by simp) b (by simp [hb]) hpa hpb
        exact hnd.1 (this ▸ hb)
      rw [ht]
      simp [hpa]
    · have := countP_le_one_of_unique p t hnd.2
        (fun x hx y hy hpx hpy => huniq x (by simp [hx]) y (by simp [hy]) hpx hpy)
      simp [hpa]
      omega

theorem sum_map_flatMap {α β : Type} :
    ∀ (l : List α) (h : α → List β) (f : β → Nat),
      ((l.flatMap h).map f).sum = (l.map (fun a => ((h a).map f).sum)).sum
  | [], _, _ => rfl
  | a :: t, h, f => by
    rw [List.flatMap_cons, List.map_append, List.sum_append, List.map_cons,
      List.sum_cons, sum_map_flatMap t h f]

theorem sum_le_one_single {α : Type} (a0 : α) (f : α → Nat) :
    ∀ (l : List α), l.Nodup → (∀ a ∈ l, f a ≤ 1) → (∀ a ∈ l, 0 < f a → a = a0) →
      (l.map f).sum ≤ 1
  | [], _, _, _ => by simp
  | a :: t, hnd, hle, hz => by
    rw [List.map_cons, List.sum_cons]
    rw [List.nodup_cons] at hnd
    by_cases hfa : f a = 0
    · rw [hfa]
      have := sum_le_one_single a0 f t hnd.2 (fun x hx => hle x (by simp [hx]))
        (fun x hx h => hz x (by simp [hx]) h)
      omega
    · have ha0 : a = a0 := hz a (by simp) (by omega)
      have ht : ((t.map f).sum = 0) := by
        apply List.sum_eq_zero
        intro x hx
        rw [List.mem_map] at hx
        obtain ⟨b, hb, rfl⟩ := hx
        by_contra hc
        have hb0 : b = a0 := hz b (by simp [hb]) (by omega)
        exact hnd.1 ((ha0.trans hb0.symm) ▸ hb)
      have := hle a (by simp)
      omega

theorem sum_le_one_pairwise (v : Gem) (pk : Gem → Bool) :
    ∀ (ms : List GemMatch),
      List.Pairwise (fun m1 m2 => ∀ g ∈ m1.gems, g ∉ m2.gems) ms →
      (∀ m ∈ ms, m.gems.countP pk ≤ 1) →
      (∀ m ∈ ms, ∀ x ∈ m.gems, pk x = true → x = v) →
      ((ms.map (fun m => m.gems.countP pk)).sum) ≤ 1
  | [], _, _, _ => by simp
  | m :: t, hpw, hle, hv => by
    rw [List.map_cons, List.sum_cons]
    rw [List.pairwise_cons] at hpw
    by_cases hm0 : m.gems.countP pk = 0
    · rw [hm0]
      have := sum_le_one_pairwise v pk t hpw.2 (fun x hx => hle x (by simp [hx]))
        (fun x hx => hv x (by simp [hx]))
      omega
    · have hvm : v ∈ m.gems := by
        obtain ⟨x, hx, hpx⟩ :=
          List.countP_pos.mp (show 0 < m.gems.countP pk by omega)
        exact (hv m (by simp) x hx hpx) ▸ hx
      have ht : (t.map (fun m => m.gems.countP pk)).sum = 0 := by
        apply List.sum_eq_zero
        intro x hx
        rw [List.mem_map] at hx
        obtain ⟨m2, hm2, rfl⟩ := hx
        by_contra hc
        obtain ⟨x2, hx2, hpx2⟩ :=
          List.countP_pos.mp (show 0 < m2.gems.countP pk by omega)
        have hveq : x2 = v := hv m2 (by simp [hm2]) x2 hx2 hpx2
        exact hpw.1 m2 hm2 v hvm (hveq ▸ hx2)
      have := hle m (by simp)
      omega

end Match3

namespace Match3

theorem cellN_some_bounds (b : Board) (x y : Nat) (g : Gem)
    (hws : wellSized b) (h : cellN b x y = some g) :
    x < b.width ∧ y < b.height := by
  have hx : x < b.gems.length := by
    by_contra hc
    unfold cellN at h
    rw [List.getD_eq_default _ _ (le_of_not_lt hc)] at h
    simp at h
  have hy : y < (b.gems.getD x []).length := by
    by_contra hc
    unfold cellN at h
    rw [List.getD_eq_default _ _ (le_of_not_lt hc)] at h
    simp at h
  have hxw : x < b.width := hws.1 ▸ hx
  refine ⟨hxw, ?_⟩
  rw [colLen_of_wellSized b x hws hxw] at hy
  exact hy

theorem cell_key_unique (b : Board) (hcons : consistent b)
    (x y x' y' : Nat) (g g' : Gem)
    (h : cellN b x y = some g) (h' : cellN b x' y' = some g')
    (hk : gemKey g = gemKey g') : g = g' := by
  obtain ⟨hx, hy⟩ := hcons x y g h
  obtain ⟨hx', hy'⟩ := hcons x' y' g' h'
  unfold gemKey at hk
  rw [Prod.mk.injEq] at hk
  have hxx : x = x' := by omega
  have hyy : y = y' := by omega
  subst hxx
  subst hyy
  exact Option.some_inj.mp (h.symm.trans h')

theorem hkeyinj_row (b : Board) (hcons : consistent b) (y : Nat) :
    ∀ i j g h, cellN b i y = some g → cellN b j y = some h →
      gemKey g = gemKey h → i = j := by
  intro i j g h hg hh hk
  obtain ⟨hgx, _⟩ := hcons i y g hg
  obtain ⟨hhx, _⟩ := hcons j y h hh
  unfold gemKey at hk
  rw [Prod.mk.injEq] at hk
  omega

theorem hkeyinj_col (b : Board) (hcons : consistent b) (x : Nat) :
    ∀ i j g h, cellN b x i = some g → cellN b x j = some h →
      gemKey g = gemKey h → i = j := by
  intro i j g h hg hh hk
  obtain ⟨_, hgy⟩ := hcons x i g hg
  obtain ⟨_, hhy⟩ := hcons x j h hh
  unfold gemKey at hk
  rw [Prod.mk.injEq] at hk
  omega

theorem scanLine_row_eq (b : Board) (y : Nat) :
    scanLine "horizontal" (rowCells b y) =
      scanAux "horizontal"
        ((List.range' 0 b.width).map fun x => cellN b x y) [] none := by
  unfold scanLine rowCells
  rw [List.range_eq_range']

theorem scanLine_col_eq (b : Board) (x : Nat) :
    scanLine "vertical" (colCells b x) =
      scanAux "vertical"
        ((List.range' 0 b.height).map fun y => cellN b x y) [] none := by
  unfold scanLine colCells
  rw [List.range_eq_range']

theorem scan_gems_nodup (dir : String) (f : Nat → Option Gem) (n : Nat)
    (hkeyinj : ∀ i j g h, f i = some g → f j = some h →
      gemKey g = gemKey h → i = j)
    (m : GemMatch) (hm : m ∈ scanAux dir ((List.range' 0 n).map f) [] none) :
    m.gems.Nodup ∧
      (∀ a ∈ m.gems, ∀ c ∈ m.gems, gemKey a = gemKey c → a = c) := by
  obtain ⟨_, _, _, z, hz⟩ := scanAux_char dir f n 0 [] none 0 (by simp)
    (by intro i hi; simp at hi) (by intro h; simp at h) m hm
  have hget : ∀ i j (hi : i < m.gems.length) (hj : j < m.gems.length),
      gemKey (m.gems.get ⟨i, hi⟩) = gemKey (m.gems.get ⟨j, hj⟩) → i = j := by
    intro i j hi hj hk
    have := hkeyinj (z + i) (z + j) _ _ (hz i hi) (hz j hj) hk
    omega
  constructor
  · rw [List.nodup_iff_injective_get]
    intro ⟨i, hi⟩ ⟨j, hj⟩ hij
    have : i = j := hget i j hi hj (by rw [hij])
    subst this
    rfl
  · intro a ha c hc hk
    obtain ⟨⟨i, hi⟩, rfl⟩ := List.mem_iff_get.mp ha
    obtain ⟨⟨j, hj⟩, rfl⟩ := List.mem_iff_get.mp hc
    have : i = j := hget i j hi hj hk
    subst this
    rfl

theorem scan_countP_le_one (dir : String) (f : Nat → Option Gem) (n : Nat)
    (k : Int × Int)
    (hkeyinj : ∀ i j g h, f i = some g → f j = some h →
      gemKey g = gemKey h → i = j)
    (m : GemMatch) (hm : m ∈ scanAux dir ((List.range' 0 n).map f) [] none) :
    m.gems.countP (fun g => decide (gemKey g = k)) ≤ 1 := by
  obtain ⟨hnd, huniq⟩ := scan_gems_nodup dir f n hkeyinj m hm
  apply countP_le_one_of_unique _ _ hnd
  intro a ha c hc hpa hpc
  have hka : gemKey a = k := of_decide_eq_true hpa
  have hkc : gemKey c = k := of_decide_eq_true hpc
  exact huniq a ha c hc (hka.trans hkc.symm)

theorem scan_sum_le_one (dir : String) (f : Nat → Option Gem) (n : Nat)
    (k : Int × Int)
    (hkeyinj : ∀ i j g h, f i = some g → f j = some h →
      gemKey g = gemKey h → i = j) :
    ((scanAux dir ((List.range' 0 n).map f) [] none).map
      (fun m => m.gems.countP (fun g => decide (gemKey g = k)))).sum ≤ 1 := by
  have hinj : ∀ i j g, f i = some g → f j = some g → i = j := by
    intro i j g hi hj
    exact hkeyinj i j g g hi hj rfl
  have hdisj := scanAux_disjoint dir f hinj n 0 [] none 0 (by simp)
    (by intro i hi; simp at hi)
  by_cases hex : ∃ m ∈ scanAux dir ((List.range' 0 n).map f) [] none,
      ∃ x ∈ m.gems, gemKey x = k
  · obtain ⟨m0, hm0, v, hv, hkv⟩ := hex
    apply sum_le_one_pairwise v _ _ hdisj.2
    · intro m hm
      exact scan_countP_le_one dir f n k hkeyinj m hm
    · intro m hm x hx hpx
      have hkx : gemKey x = k := of_decide_eq_true hpx
      obtain ⟨i, _, hif⟩ := hdisj.1 m hm x hx
      obtain ⟨j, _, hjf⟩ := hdisj.1 m0 hm0 v hv
      have hij : i = j := hkeyinj i j x v hif hjf (hkx.trans hkv.symm)
      subst hij
      exact Option.some_inj.mp (hif.symm.trans hjf)
  · have hz : ((scanAux dir ((List.range' 0 n).map f) [] none).map
        (fun m => m.gems.countP (fun g => decide (gemKey g = k)))).sum = 0 := by
      apply List.sum_eq_zero
      intro c hc
      rw [List.mem_map] at hc
      obtain ⟨m, hm, rfl⟩ := hc
      rw [List.countP_eq_zero]
      intro g hg hp
      have hkg : gemKey g = k := of_decide_eq_true hp
      exact hex ⟨m, hm, g, hg, hkg⟩
    rw [hz]
    exact Nat.zero_le 1

theorem sum_countP_pos (ms : List GemMatch) (k : Int × Int)
    (h : 0 < (ms.map (fun m => m.gems.countP
      (fun g => decide (gemKey g = k)))).sum) :
    ∃ m ∈ ms, ∃ x ∈ m.gems, gemKey x = k := by
  obtain ⟨m, hm, hc⟩ := sum_pos_exists _ _ h
  obtain ⟨x, hx, hp⟩ := List.countP_pos.mp hc
  exact ⟨m, hm, x, hx, of_decide_eq_true hp⟩

end Match3

namespace Match3

theorem rawH_sum_le_one (b : Board) (hcons : consistent b) (k : Int × Int) :
    ((((List.range b.height).flatMap fun y =>
        scanLine "horizontal" (rowCells b y))).map
      (fun m => m.gems.countP (fun g => decide (gemKey g = k)))).sum ≤ 1 := by
  rw [sum_map_flatMap]
  apply sum_le_one_single k.2.toNat _ _ (List.nodup_range _)
  · intro y _
    rw [scanLine_row_eq]
    exact scan_sum_le_one "horizontal" (fun x => cellN b x y) b.width k
      (hkeyinj_row b hcons y)
  · intro y _ hpos
    rw [scanLine_row_eq] at hpos
    obtain ⟨m, hm, x, hx, hkx⟩ := sum_countP_pos _ k hpos
    have hinj : ∀ i j g, cellN b i y = some g → cellN b j y = some g → i = j := by
      intro i j g hi hj
      exact hkeyinj_row b hcons y i j g g hi hj rfl
    have hdisj := scanAux_disjoint "horizontal" (fun x => cellN b x y) hinj
      b.width 0 [] none 0 (by simp) (by intro i hi; simp at hi)
    obtain ⟨i, _, hif⟩ := hdisj.1 m hm x hx
    obtain ⟨_, hgy⟩ := hcons i y x hif
    have hk2 : k.2 = x.gridY := by
      rw [← hkx]
      rfl
    omega

theorem rawV_sum_le_one (b : Board) (hcons : consistent b) (k : Int × Int) :
    ((((List.range b.width).flatMap fun x =>
        scanLine "vertical" (colCells b x))).map
      (fun m => m.gems.countP (fun g => decide (gemKey g = k)))).sum ≤ 1 := by
  rw [sum_map_flatMap]
  apply sum_le_one_single k.1.toNat _ _ (List.nodup_range _)
  · intro x _
    rw [scanLine_col_eq]
    exact scan_sum_le_one "vertical" (fun y => cellN b x y) b.height k
      (hkeyinj_col b hcons x)
  · intro x _ hpos
    rw [scanLine_col_eq] at hpos
    obtain ⟨m, hm, g, hg, hkg⟩ := sum_countP_pos _ k hpos
    have hinj : ∀ i j g, cellN b x i = some g → cellN b x j = some g → i = j := by
      intro i j g hi hj
      exact hkeyinj_col b hcons x i j g g hi hj rfl
    have hdisj := scanAux_disjoint "vertical" (fun y => cellN b x y) hinj
      b.height 0 [] none 0 (by simp) (by intro i hi; simp at hi)
    obtain ⟨i, _, hif⟩ := hdisj.1 m hm g hg
    obtain ⟨hgx, _⟩ := hcons x i g hif
    have hk1 : k.1 = g.gridX := by
      rw [← hkg]
      rfl
    omega

theorem tsLen_raw (b : Board) (k : Int × Int) :
    tsLen (buildMatchMap (rawMatches b)) k =
      ((((List.range b.height).flatMap fun y =>
          scanLine "horizontal" (rowCells b y))).map
        (fun m => m.gems.countP (fun g => decide (gemKey g = k)))).sum +
      ((((List.range b.width).flatMap fun x =>
          scanLine "vertical" (colCells b x))).map
        (fun m => m.gems.countP (fun g => decide (gemKey g = k)))).sum := by
  rw [tsLen_buildMatchMap]
  unfold rawMatches
  rw [List.map_append, List.sum_append]

theorem rawH_key_gem (b : Board) (hws : wellSized b) (hcons : consistent b)
    (k : Int × Int)
    (hpos : 0 < ((((List.range b.height).flatMap fun y =>
        scanLine "horizontal" (rowCells b y))).map
      (fun m => m.gems.countP (fun g => decide (gemKey g = k)))).sum) :
    ∃ v gH : Gem, ∃ xv yv xh : Nat,
      cellN b xv yv = some v ∧ gemKey v = k ∧
      cellN b xh yv = some gH ∧
      matchMapHas (buildMatchMap (rawMatches b)) (gemKey gH) = true ∧
      gH ≠ v ∧ gH.gridY = v.gridY ∧
      (gH.gridX = v.gridX + 1 ∨ gH.gridX + 1 = v.gridX) := by
  rw [sum_map_flatMap] at hpos
  obtain ⟨y, hyr, hy⟩ := sum_pos_exists _ _ hpos
  rw [scanLine_row_eq] at hy
  obtain ⟨m, hm, v0, hv0, hkv⟩ := sum_countP_pos _ k hy
  obtain ⟨_, hlen, _, z, hz⟩ := scanAux_char "horizontal" (fun x => cellN b x y)
    b.width 0 [] none 0 (by simp) (by intro i hi; simp at hi)
    (by intro h; simp at h) m hm
  obtain ⟨⟨i, hi⟩, rfl⟩ := List.mem_iff_get.mp hv0
  have hvcell : cellN b (z + i) y = some (m.gems.get ⟨i, hi⟩) := hz i hi
  obtain ⟨hvx, hvy⟩ := hcons (z + i) y _ hvcell
  have hmraw : m ∈ rawMatches b := by
    unfold rawMatches
    apply List.mem_append_left
    apply List.mem_flatMap.mpr
    refine ⟨y, hyr, ?_⟩
    rw [scanLine_row_eq]
    exact hm
  by_cases hnb : i + 1 < m.gems.length
  · have hHcell : cellN b (z + (i + 1)) y = some (m.gems.get ⟨i + 1, hnb⟩) :=
      hz (i + 1) hnb
    obtain ⟨hgx, hgy⟩ := hcons (z + (i + 1)) y _ hHcell
    refine ⟨m.gems.get ⟨i, hi⟩, m.gems.get ⟨i + 1, hnb⟩, z + i, y, z + (i + 1),
      hvcell, hkv, hHcell, ?_, ?_, ?_, ?_⟩
    · exact matchMapHas_of_mem (rawMatches b) m _ hmraw (m.gems.get_mem _ _)
    · intro heq
      have := congrArg Gem.gridX heq
      rw [hgx, hvx] at this
      omega
    · rw [hgy, hvy]
    · left
      rw [hgx, hvx]
      push_cast
      ring
  · have hi1 : i - 1 < m.gems.length := by omega
    have hige : 2 ≤ i := by omega
    have hHcell : cellN b (z + (i - 1)) y = some (m.gems.get ⟨i - 1, hi1⟩) :=
      hz (i - 1) hi1
    obtain ⟨hgx, hgy⟩ := hcons (z + (i - 1)) y _ hHcell
    refine ⟨m.gems.get ⟨i, hi⟩, m.gems.get ⟨i - 1, hi1⟩, z + i, y, z + (i - 1),
      hvcell, hkv, hHcell, ?_, ?_, ?_, ?_⟩
    · exact matchMapHas_of_mem (rawMatches b) m _ hmraw (m.gems.get_mem _ _)
    · intro heq
      have := congrArg Gem.gridX heq
      rw [hgx, hvx] at this
      omega
    · rw [hgy, hvy]
    · right
      rw [hgx, hvx]
      omega

theorem rawV_key_gem (b : Board) (hws : wellSized b) (hcons : consistent b)
    (k : Int × Int)
    (hpos : 0 < ((((List.range b.width).flatMap fun x =>
        scanLine "vertical" (colCells b x))).map
      (fun m => m.gems.countP (fun g => decide (gemKey g = k)))).sum) :
    ∃ v gV : Gem, ∃ xv yv yc : Nat,
      cellN b xv yv = some v ∧ gemKey v = k ∧
      cellN b xv yc = some gV ∧
      matchMapHas (buildMatchMap (rawMatches b)) (gemKey gV) = true ∧
      gV ≠ v ∧ gV.gridX = v.gridX ∧
      (gV.gridY = v.gridY + 1 ∨ gV.gridY + 1 = v.gridY) := by
  rw [sum_map_flatMap] at hpos
  obtain ⟨x, hxr, hx⟩ := sum_pos_exists _ _ hpos
  rw [scanLine_col_eq] at hx
  obtain ⟨m, hm, v0, hv0, hkv⟩ := sum_countP_pos _ k hx
  obtain ⟨_, hlen, _, z, hz⟩ := scanAux_char "vertical" (fun y => cellN b x y)
    b.height 0 [] none 0 (by simp) (by intro i hi; simp at hi)
    (by intro h; simp at h) m hm
  obtain ⟨⟨i, hi⟩, rfl⟩ := List.mem_iff_get.mp hv0
  have hvcell : cellN b x (z + i) = some (m.gems.get ⟨i, hi⟩) := hz i hi
  obtain ⟨hvx, hvy⟩ := hcons x (z + i) _ hvcell
  have hmraw : m ∈ rawMatches b := by
    unfold rawMatches
    apply List.mem_append_right
    apply List.mem_flatMap.mpr
    refine ⟨x, hxr, ?_⟩
    rw [scanLine_col_eq]
    exact hm
  by_cases hnb : i + 1 < m.gems.length
  · have hVcell : cellN b x (z + (i + 1)) = some (m.gems.get ⟨i + 1, hnb⟩) :=
      hz (i + 1) hnb
    obtain ⟨hgx, hgy⟩ := hcons x (z + (i + 1)) _ hVcell
    refine ⟨m.gems.get ⟨i, hi⟩, m.gems.get ⟨i + 1, hnb⟩, x, z + i, z + (i + 1),
      hvcell, hkv, hVcell, ?_, ?_, ?_, ?_⟩
    · exact matchMapHas_of_mem (rawMatches b) m _ hmraw (m.gems.get_mem _ _)
    · intro heq
      have := congrArg Gem.gridY heq
      rw [hgy, hvy] at this
      omega
    · rw [hgx, hvx]
    · left
      rw [hgy, hvy]
      push_cast
      ring
  · have hi1 : i - 1 < m.gems.length := by omega
    have hige : 2 ≤ i := by omega
    have hVcell : cellN b x (z + (i - 1)) = some (m.gems.get ⟨i - 1, hi1⟩) :=
      hz (i - 1) hi1
    obtain ⟨hgx, hgy⟩ := hcons x (z + (i - 1)) _ hVcell
    refine ⟨m.gems.get ⟨i, hi⟩, m.gems.get ⟨i - 1, hi1⟩, x, z + i, z + (i - 1),
      hvcell, hkv, hVcell, ?_, ?_, ?_, ?_⟩
    · exact matchMapHas_of_mem (rawMatches b) m _ hmraw (m.gems.get_mem _ _)
    · intro heq
      have := congrArg Gem.gridY heq
      rw [hgy, hvy] at this
      omega
    · rw [hgx, hvx]
    · right
      rw [hgy, hvy]
      omega

end Match3

namespace Match3

theorem mem_getAdjacentGems (b : Board) (hws : wellSized b) (x y : Int)
    (d : Int × Int) (hd : d ∈ adjacentDirs) (g : Gem) (xh yh : Nat)
    (hcell : cellN b xh yh = some g)
    (hx : (xh : Int) = x + d.1) (hy : (yh : Int) = y + d.2) :
    some g ∈ getAdjacentGems b x y := by
  obtain ⟨hbx, hby⟩ := cellN_some_bounds b xh yh g hws hcell
  have hvalid : isValidGridPosition b (x + d.1) (y + d.2) = true := by
    unfold isValidGridPosition
    rw [← hx, ← hy]
    simp only [Bool.and_eq_true, decide_eq_true_eq]
    refine ⟨⟨⟨?_, ?_⟩, ?_⟩, ?_⟩ <;> omega
  unfold getAdjacentGems adjacentPositions
  refine List.mem_map.mpr ⟨(x + d.1, y + d.2), ?_, ?_⟩
  · exact List.mem_map.mpr ⟨d, List.mem_filter.mpr ⟨hd, hvalid⟩, rfl⟩
  · show cellI b (x + d.1) (y + d.2) = some g
    rw [← hx, ← hy, cellI_natCast]
    exact hcell

theorem pivot_neighbors (b : Board) (hws : wellSized b) (hcons : consistent b)
    (k : Int × Int) (hk : 1 < tsLen (buildMatchMap (rawMatches b)) k) :
    ∃ v gH gV : Gem, ∃ xv yv : Nat,
      cellN b xv yv = some v ∧ gemKey v = k ∧
      some gH ∈ getAdjacentGems b v.gridX v.gridY ∧
      some gV ∈ getAdjacentGems b v.gridX v.gridY ∧
      matchMapHas (buildMatchMap (rawMatches b)) (gemKey gH) = true ∧
      matchMapHas (buildMatchMap (rawMatches b)) (gemKey gV) = true ∧
      gH ≠ v ∧ gV ≠ v ∧ gH ≠ gV := by
  rw [tsLen_raw] at hk
  have hH := rawH_sum_le_one b hcons k
  have hV := rawV_sum_le_one b hcons k
  obtain ⟨v, gH, xv, yv, xh, hvcell, hkv, hHcell, hHhas, hHne, hHy, hHx⟩ :=
    rawH_key_gem b hws hcons k (by omega)
  obtain ⟨v', gV, xv', yv', yc, hvcell', hkv', hVcell, hVhas, hVne, hVx, hVy⟩ :=
    rawV_key_gem b hws hcons k (by omega)
  have hvv : v' = v :=
    cell_key_unique b hcons xv' yv' xv yv v' v hvcell' hvcell (hkv'.trans hkv.symm)
  rw [hvv] at hVne hVx hVy
  obtain ⟨hgHx, hgHy⟩ := hcons xh yv gH hHcell
  obtain ⟨hgVx, hgVy⟩ := hcons xv' yc gV hVcell
  obtain ⟨hvx, hvy⟩ := hcons xv yv v hvcell
  refine ⟨v, gH, gV, xv, yv, hvcell, hkv, ?_, ?_, hHhas, hVhas, hHne, hVne, ?_⟩
  · rcases hHx with hHx | hHx
    · exact mem_getAdjacentGems b hws v.gridX v.gridY (1, 0)
        (by simp [adjacentDirs]) gH xh yv hHcell (by rw [← hgHx, hHx]) (by
          rw [← hgHy, hHy]
          omega)
    · exact mem_getAdjacentGems b hws v.gridX v.gridY (-1, 0)
        (by simp [adjacentDirs]) gH xh yv hHcell (by rw [← hgHx]; omega) (by
          rw [← hgHy, hHy]
          omega)
  · rcases hVy with hVy | hVy
    · exact mem_getAdjacentGems b hws v.gridX v.gridY (0, 1)
        (by simp [adjacentDirs]) gV xv' yc hVcell (by rw [← hgVx, hVx]; omega)
        (by rw [← hgVy, hVy])
    · exact mem_getAdjacentGems b hws v.gridX v.gridY (0, -1)
        (by simp [adjacentDirs]) gV xv' yc hVcell (by rw [← hgVx, hVx]; omega)
        (by rw [← hgVy]; omega)
  · intro heq
    have h1 : gH.gridY = v.gridY := hHy
    rw [heq] at h1
    omega

end Match3

namespace Match3

theorem flood_foldl_mono (b : Board) (mm : MatchMap) (fuel : Nat)
    (ihm : ∀ g s x, x ∈ s → x ∈ findConnectedGems b mm fuel g s) :
    ∀ (L : List (Option Gem)) (s : List Gem) (x : Gem), x ∈ s →
      x ∈ L.foldl
        (fun s adj =>
          match adj with
          | some a => if matchMapHas mm (gemKey a) then
              findConnectedGems b mm fuel a s else s
          | none => s) s
  | [], _, _, hx => hx
  | adj :: rest, s, x, hx => by
    rw [List.foldl_cons]
    cases adj with
    | none => exact flood_foldl_mono b mm fuel ihm rest s x hx
    | some a =>
      by_cases hhas : matchMapHas mm (gemKey a) = true
      · dsimp only
        rw [if_pos hhas]
        exact flood_foldl_mono b mm fuel ihm rest _ x (ihm a s x hx)
      · dsimp only
        rw [if_neg hhas]
        exact flood_foldl_mono b mm fuel ihm rest s x hx

theorem flood_mono (b : Board) (mm : MatchMap) :
    ∀ (fuel : Nat) (g : Gem) (s : List Gem) (x : Gem), x ∈ s →
      x ∈ findConnectedGems b mm fuel g s
  | 0, _, _, _, hx => hx
  | fuel + 1, g, s, x, hx => by
    unfold findConnectedGems
    by_cases hg : g ∈ s
    · rw [if_pos hg]
      exact hx
    · rw [if_neg hg]
      exact flood_foldl_mono b mm fuel
        (fun g' s' x' hx' => flood_mono b mm fuel g' s' x' hx')
        _ _ x (List.mem_append_left _ hx)

theorem flood_self (b : Board) (mm : MatchMap) (fuel : Nat) (g : Gem)
    (s : List Gem) : g ∈ findConnectedGems b mm (fuel + 1) g s := by
  unfold findConnectedGems
  by_cases hg : g ∈ s
  · rw [if_pos hg]
    exact hg
  · rw [if_neg hg]
    exact flood_foldl_mono b mm fuel
      (fun g' s' x' hx' => flood_mono b mm fuel g' s' x' hx')
      _ _ g (List.mem_append_right _ (by simp))

theorem flood_adj (b : Board) (mm : MatchMap) (fuel : Nat) (g a : Gem)
    (s : List Gem) (hg : g ∉ s)
    (ha : some a ∈ getAdjacentGems b g.gridX g.gridY)
    (hhas : matchMapHas mm (gemKey a) = true) :
    a ∈ findConnectedGems b mm (fuel + 2) g s := by
  unfold findConnectedGems
  rw [if_neg hg]
  obtain ⟨L1, L2, hL⟩ := List.append_of_mem ha
  rw [hL, List.foldl_append, List.foldl_cons]
  dsimp only
  rw [if_pos hhas]
  exact flood_foldl_mono b mm (fuel + 1)
    (fun g' s' x' hx' => flood_mono b mm (fuel + 1) g' s' x' hx')
    _ _ a (flood_self b mm fuel a _)

theorem flood_foldl_prov (b : Board) (mm : MatchMap) (fuel : Nat)
    (ihp : ∀ g s, (∃ cx cy, cellN b cx cy = some g) →
      (∀ x ∈ s, ∃ cx cy, cellN b cx cy = some x) →
      ∀ x ∈ findConnectedGems b mm fuel g s, ∃ cx cy, cellN b cx cy = some x) :
    ∀ (L : List (Option Gem)) (s : List Gem),
      (∀ a, some a ∈ L → ∃ cx cy, cellN b cx cy = some a) →
      (∀ x ∈ s, ∃ cx cy, cellN b cx cy = some x) →
      ∀ x ∈ L.foldl
        (fun s adj =>
          match adj with
          | some a => if matchMapHas mm (gemKey a) then
              findConnectedGems b mm fuel a s else s
          | none => s) s, ∃ cx cy, cellN b cx cy = some x
  | [], s, _, hs, x, hx => hs x hx
  | adj :: rest, s, hL, hs, x, hx => by
    rw [List.foldl_cons] at hx
    cases adj with
    | none =>
      exact flood_foldl_prov b mm fuel ihp rest s
        (fun a ha => hL a (by simp [ha])) hs x hx
    | some a =>
      by_cases hhas : matchMapHas mm (gemKey a) = true
      · dsimp only at hx
        rw [if_pos hhas] at hx
        have ha : ∃ cx cy, cellN b cx cy = some a := hL a (by simp)
        exact flood_foldl_prov b mm fuel ihp rest _
          (fun a' ha' => hL a' (by simp [ha'])) (ihp a s ha hs) x hx
      · dsimp only at hx
        rw [if_neg hhas] at hx
        exact flood_foldl_prov b mm fuel ihp rest s
          (fun a' ha' => hL a' (by simp [ha'])) hs x hx

theorem flood_prov (b : Board) (mm : MatchMap) :
    ∀ (fuel : Nat) (g : Gem) (s : List Gem),
      (∃ cx cy, cellN b cx cy = some g) →
      (∀ x ∈ s, ∃ cx cy, cellN b cx cy = some x) →
      ∀ x ∈ findConnectedGems b mm fuel g s, ∃ cx cy, cellN b cx cy = some x
  | 0, _, _, _, hs, x, hx => hs x hx
  | fuel + 1, g, s, hg, hs, x, hx => by
    unfold findConnectedGems at hx
    by_cases hgs : g ∈ s
    · rw [if_pos hgs] at hx
      exact hs x hx
    · rw [if_neg hgs] at hx
      refine flood_foldl_prov b mm fuel
        (fun g' s' hg' hs' x' hx' => flood_prov b mm fuel g' s' hg' hs' x' hx')
        _ _ ?_ ?_ x hx
      · intro a ha
        unfold getAdjacentGems at ha
        rw [List.mem_map] at ha
        obtain ⟨p, _, hpa⟩ := ha
        unfold cellI at hpa
        split at hpa
        · exact ⟨p.1.toNat, p.2.toNat, hpa⟩
        · simp at hpa
      · intro x' hx'
        rcases List.mem_append.mp hx' with h | h
        · exact hs x' h
        · rw [List.mem_singleton] at h
          subst h
          exact hg

end Match3

namespace Match3

theorem interStep_eq (b : Board) (mm : MatchMap) (s : List Gem) (g : Gem) :
    (match matchMapGet mm (gemKey g) with
      | some (_, tys) =>
        if 1 < tys.length then
          findConnectedGems b mm (b.width * b.height + 1) g s
        else s
      | none => s) =
    (if 1 < tsLen mm (gemKey g) then
      findConnectedGems b mm (b.width * b.height + 1) g s
    else s) := by
  unfold tsLen
  cases heq : matchMapGet mm (gemKey g) with
  | none => rfl
  | some e =>
    obtain ⟨g0, tys⟩ := e
    rfl

theorem interFold_mono (b : Board) (mm : MatchMap) :
    ∀ (gs : List Gem) (s : List Gem) (x : Gem), x ∈ s →
      x ∈ gs.foldl (fun s g =>
        match matchMapGet mm (gemKey g) with
        | some (_, tys) =>
          if 1 < tys.length then
            findConnectedGems b mm (b.width * b.height + 1) g s
          else s
        | none => s) s
  | [], _, _, hx => hx
  | g :: rest, s, x, hx => by
    rw [List.foldl_cons]
    rw [interStep_eq]
    by_cases hp : 1 < tsLen mm (gemKey g)
    · rw [if_pos hp]
      exact interFold_mono b mm rest _ x (flood_mono b mm _ g s x hx)
    · rw [if_neg hp]
      exact interFold_mono b mm rest s x hx

theorem interFold_id (b : Board) (mm : MatchMap) :
    ∀ (gs : List Gem) (s : List Gem),
      (∀ g ∈ gs, ¬ 1 < tsLen mm (gemKey g)) →
      gs.foldl (fun s g =>
        match matchMapGet mm (gemKey g) with
        | some (_, tys) =>
          if 1 < tys.length then
            findConnectedGems b mm (b.width * b.height + 1) g s
          else s
        | none => s) s = s
  | [], _, _ => rfl
  | g :: rest, s, hnp => by
    rw [List.foldl_cons]
    rw [interStep_eq, if_neg (hnp g (by simp))]
    exact interFold_id b mm rest s (fun g' hg' => hnp g' (by simp [hg']))

theorem interFold_pos_pivot (b : Board) (mm : MatchMap) (gs : List Gem)
    (h : 0 < (gs.foldl (fun s g =>
      match matchMapGet mm (gemKey g) with
      | some (_, tys) =>
        if 1 < tys.length then
          findConnectedGems b mm (b.width * b.height + 1) g s
        else s
      | none => s) []).length) :
    ∃ g ∈ gs, 1 < tsLen mm (gemKey g) := by
  by_contra hc
  have hc' : ∀ g ∈ gs, ¬ 1 < tsLen mm (gemKey g) := by
    intro g hg hp
    exact hc ⟨g, hg, hp⟩
  rw [interFold_id b mm gs [] hc'] at h
  simp at h

theorem interFold_first_pivot (b : Board) (mm : MatchMap) :
    ∀ (gs : List Gem),
      (∃ g ∈ gs, 1 < tsLen mm (gemKey g)) →
      ∃ g ∈ gs, 1 < tsLen mm (gemKey g) ∧
        ∀ x ∈ findConnectedGems b mm (b.width * b.height + 1) g [],
          x ∈ gs.foldl (fun s g =>
            match matchMapGet mm (gemKey g) with
            | some (_, tys) =>
              if 1 < tys.length then
                findConnectedGems b mm (b.width * b.height + 1) g s
              else s
            | none => s) []
  | [], h => by simp at h
  | g :: rest, h => by
    by_cases hp : 1 < tsLen mm (gemKey g)
    · refine ⟨g, by simp, hp, ?_⟩
      intro x hx
      rw [List.foldl_cons]
      rw [interStep_eq, if_pos hp]
      exact interFold_mono b mm rest _ x hx
    · have hrest : ∃ g' ∈ rest, 1 < tsLen mm (gemKey g') := by
        obtain ⟨g', hg', hpg⟩ := h
        rcases List.mem_cons.mp hg' with rfl | hmem
        · exact absurd hpg hp
        · exact ⟨g', hmem, hpg⟩
      obtain ⟨g', hg', hp', hsub⟩ := interFold_first_pivot b mm rest hrest
      refine ⟨g', by simp [hg'], hp', ?_⟩
      intro x hx
      rw [List.foldl_cons]
      rw [interStep_eq, if_neg hp]
      exact hsub x hx

theorem interFold_prov (b : Board) (mm : MatchMap) :
    ∀ (gs : List Gem) (s : List Gem),
      (∀ g ∈ gs, ∃ cx cy, cellN b cx cy = some g) →
      (∀ x ∈ s, ∃ cx cy, cellN b cx cy = some x) →
      ∀ x ∈ gs.foldl (fun s g =>
        match matchMapGet mm (gemKey g) with
        | some (_, tys) =>
          if 1 < tys.length then
            findConnectedGems b mm (b.width * b.height + 1) g s
          else s
        | none => s) s, ∃ cx cy, cellN b cx cy = some x
  | [], s, _, hs, x, hx => hs x hx
  | g :: rest, s, hgs, hs, x, hx => by
    rw [List.foldl_cons] at hx
    rw [interStep_eq] at hx
    by_cases hp : 1 < tsLen mm (gemKey g)
    · rw [if_pos hp] at hx
      exact interFold_prov b mm rest _ (fun g' hg' => hgs g' (by simp [hg']))
        (flood_prov b mm _ g s (hgs g (by simp)) hs) x hx
    · rw [if_neg hp] at hx
      exact interFold_prov b mm rest s
        (fun g' hg' => hgs g' (by simp [hg'])) hs x hx

theorem three_distinct_length {α : Type} [DecidableEq α] (l : List α)
    (a c d : α) (ha : a ∈ l) (hc : c ∈ l) (hd : d ∈ l)
    (hac : a ≠ c) (had : a ≠ d) (hcd : c ≠ d) : 3 ≤ l.length := by
  have hsub : ({a, c, d} : Finset α) ⊆ l.toFinset := by
    intro x hx
    rw [List.mem_toFinset]
    rcases Finset.mem_insert.mp hx with rfl | hx
    · exact ha
    rcases Finset.mem_insert.mp hx with rfl | hx
    · exact hc
    rw [Finset.mem_singleton] at hx
    subst hx
    exact hd
  have hcard : ({a, c, d} : Finset α).card = 3 := by
    rw [Finset.card_insert_of_not_mem (by simp [hac, had]),
      Finset.card_insert_of_not_mem (by simp [hcd]), Finset.card_singleton]
  calc 3 = ({a, c, d} : Finset α).card := hcard.symm
    _ ≤ l.toFinset.card := Finset.card_le_card hsub
    _ ≤ l.length := l.toFinset_card_le

end Match3

namespace Match3

theorem interFold_three (b : Board) (hws : wellSized b) (hcons : consistent b)
    (gs : List Gem)
    (hcells : ∀ g ∈ gs, ∃ cx cy, cellN b cx cy = some g)
    (hpos : 0 < (gs.foldl (fun s g =>
      match matchMapGet (buildMatchMap (rawMatches b)) (gemKey g) with
      | some (_, tys) =>
        if 1 < tys.length then
          findConnectedGems b (buildMatchMap (rawMatches b))
            (b.width * b.height + 1) g s
        else s
      | none => s) []).length) :
    3 ≤ (gs.foldl (fun s g =>
      match matchMapGet (buildMatchMap (rawMatches b)) (gemKey g) with
      | some (_, tys) =>
        if 1 < tys.length then
          findConnectedGems b (buildMatchMap (rawMatches b))
            (b.width * b.height + 1) g s
        else s
      | none => s) []).length := by
  obtain ⟨g0, hg0, hp0⟩ :=
    interFold_pos_pivot b (buildMatchMap (rawMatches b)) gs hpos
  obtain ⟨g, hg, hp, hsub⟩ :=
    interFold_first_pivot b (buildMatchMap (rawMatches b)) gs ⟨g0, hg0, hp0⟩
  obtain ⟨v, gH, gV, xv, yv, hvcell, hkv, haH, haV, hhasH, hhasV, hneH, hneV,
    hneHV⟩ := pivot_neighbors b hws hcons (gemKey g) hp
  obtain ⟨cx, cy, hc⟩ := hcells g hg
  have hveq : v = g :=
    cell_key_unique b hcons xv yv cx cy v g hvcell hc hkv
  obtain ⟨hbx, hby⟩ := cellN_some_bounds b xv yv v hws hvcell
  rw [hveq] at haH haV hneH hneV
  have hfuel : b.width * b.height + 1 = (b.width * b.height - 1) + 2 := by
    have : 0 < b.width * b.height := Nat.mul_pos (by omega) (by omega)
    omega
  have hgin : g ∈ findConnectedGems b (buildMatchMap (rawMatches b))
      (b.width * b.height + 1) g [] :=
    flood_self b (buildMatchMap (rawMatches b)) (b.width * b.height) g []
  have hHin : gH ∈ findConnectedGems b (buildMatchMap (rawMatches b))
      (b.width * b.height + 1) g [] := by
    rw [hfuel]
    exact flood_adj b (buildMatchMap (rawMatches b)) (b.width * b.height - 1)
      g gH [] (by simp) haH hhasH
  have hVin : gV ∈ findConnectedGems b (buildMatchMap (rawMatches b))
      (b.width * b.height + 1) g [] := by
    rw [hfuel]
    exact flood_adj b (buildMatchMap (rawMatches b)) (b.width * b.height - 1)
      g gV [] (by simp) haV hhasV
  exact three_distinct_length _ g gH gV (hsub g hgin) (hsub gH hHin)
    (hsub gV hVin) (fun h => hneH h.symm) (fun h => hneV h.symm) hneHV

end Match3

namespace Match3

theorem raw_mem_facts (b : Board) (m : GemMatch) (hm : m ∈ rawMatches b) :
    3 ≤ m.gems.length ∧ (∃ t, ∀ g ∈ m.gems, g.gemType = t) ∧
      (∀ g ∈ m.gems, ∃ cx cy, cellN b cx cy = some g) ∧
      (m.type = "horizontal" ∨ m.type = "vertical") := by
  unfold rawMatches at hm
  rcases List.mem_append.mp hm with hm | hm
  · obtain ⟨y, _, hmy⟩ := List.mem_flatMap.mp hm
    rw [scanLine_row_eq] at hmy
    obtain ⟨htype, hlen, hsame, z, hz⟩ := scanAux_char "horizontal"
      (fun x => cellN b x y) b.width 0 [] none 0 (by simp)
      (by intro i hi; simp at hi) (by intro h; simp at h) m hmy
    refine ⟨hlen, hsame, ?_, Or.inl htype⟩
    intro g hg
    obtain ⟨⟨i, hi⟩, rfl⟩ := List.mem_iff_get.mp hg
    exact ⟨z + i, y, hz i hi⟩
  · obtain ⟨x, _, hmx⟩ := List.mem_flatMap.mp hm
    rw [scanLine_col_eq] at hmx
    obtain ⟨htype, hlen, hsame, z, hz⟩ := scanAux_char "vertical"
      (fun y => cellN b x y) b.height 0 [] none 0 (by simp)
      (by intro i hi; simp at hi) (by intro h; simp at h) m hmx
    refine ⟨hlen, hsame, ?_, Or.inr htype⟩
    intro g hg
    obtain ⟨⟨i, hi⟩, rfl⟩ := List.mem_iff_get.mp hg
    exact ⟨x, z + i, hz i hi⟩

theorem identifyPattern_cases (gems : List Gem) :
    identifyPattern gems = "L_shape" ∨ identifyPattern gems = "T_shape" ∨
      identifyPattern gems = "special" := by
  unfold identifyPattern
  dsimp only
  split
  · exact Or.inl rfl
  · split
    · exact Or.inr (Or.inl rfl)
    · exact Or.inr (Or.inr rfl)

theorem consolidateStep_P (b : Board) (hws : wellSized b) (hcons : consistent b)
    (out : List GemMatch) (processed : List (Int × Int)) (m0 : GemMatch)
    (hraw : m0 ∈ rawMatches b)
    (hout : ∀ m ∈ out, 3 ≤ m.gems.length ∧
      (∀ g ∈ m.gems, ∃ cx cy, cellN b cx cy = some g) ∧
      ((m.type = "horizontal" ∨ m.type = "vertical") →
        ∃ t, ∀ g ∈ m.gems, g.gemType = t)) :
    ∀ m ∈ (consolidateStep b (buildMatchMap (rawMatches b))
        (out, processed) m0).1,
      3 ≤ m.gems.length ∧
      (∀ g ∈ m.gems, ∃ cx cy, cellN b cx cy = some g) ∧
      ((m.type = "horizontal" ∨ m.type = "vertical") →
        ∃ t, ∀ g ∈ m.gems, g.gemType = t) := by
  obtain ⟨hlen0, ⟨t0, ht0⟩, hprov0, _⟩ := raw_mem_facts b m0 hraw
  unfold consolidateStep
  dsimp only
  split
  · exact hout
  · split
    · next hpos =>
      intro m hm
      rcases List.mem_append.mp hm with hm | hm
      · exact hout m hm
      · rw [List.mem_singleton] at hm
        subst hm
        refine ⟨interFold_three b hws hcons m0.gems hprov0 hpos, ?_, ?_⟩
        · intro g hg
          exact interFold_prov b (buildMatchMap (rawMatches b)) m0.gems []
            hprov0 (by intro x hx; simp at hx) g hg
        · intro htype
          rcases htype with h | h <;>
            rcases identifyPattern_cases (m0.gems.foldl (fun s g =>
              match matchMapGet (buildMatchMap (rawMatches b)) (gemKey g) with
              | some (_, tys) =>
                if 1 < tys.length then
                  findConnectedGems b (buildMatchMap (rawMatches b))
                    (b.width * b.height + 1) g s
                else s
              | none => s) []) with h2 | h2 | h2 <;>
            exact absurd (h.symm.trans h2) (by decide)
    · intro m hm
      rcases List.mem_append.mp hm with hm | hm
      · exact hout m hm
      · rw [List.mem_singleton] at hm
        subst hm
        exact ⟨hlen0, hprov0, fun _ => ⟨t0, ht0⟩⟩

theorem consolidateFold_P (b : Board) (hws : wellSized b)
    (hcons : consistent b) :
    ∀ (ms : List GemMatch) (out : List GemMatch)
      (processed : List (Int × Int)),
      (∀ m ∈ ms, m ∈ rawMatches b) →
      (∀ m ∈ out, 3 ≤ m.gems.length ∧
        (∀ g ∈ m.gems, ∃ cx cy, cellN b cx cy = some g) ∧
        ((m.type = "horizontal" ∨ m.type = "vertical") →
          ∃ t, ∀ g ∈ m.gems, g.gemType = t)) →
      ∀ m ∈ (ms.foldl (consolidateStep b (buildMatchMap (rawMatches b)))
          (out, processed)).1,
        3 ≤ m.gems.length ∧
        (∀ g ∈ m.gems, ∃ cx cy, cellN b cx cy = some g) ∧
        ((m.type = "horizontal" ∨ m.type = "vertical") →
          ∃ t, ∀ g ∈ m.gems, g.gemType = t)
  | [], _, _, _, hout => hout
  | m0 :: ms, out, processed, hraw, hout => by
    rw [List.foldl_cons]
    exact consolidateFold_P b hws hcons ms
      (consolidateStep b (buildMatchMap (rawMatches b)) (out, processed) m0).1
      (consolidateStep b (buildMatchMap (rawMatches b)) (out, processed) m0).2
      (fun m hm => hraw m (by simp [hm]))
      (consolidateStep_P b hws hcons out processed m0 (hraw m0 (by simp)) hout)

end Match3

/-- C10 (amended): on a well-sized, coordinate-consistent board, every Match
returned by `findMatches` contains at least 3 gems and every gem in it is the
content of a non-empty grid cell; matches that keep a line type
(`"horizontal"`/`"vertical"`) consist of gems of a single shared `gemType`.
The original claim's stronger assertion — that ALL returned matches are
single-typed — is false: `findConnectedGems` floods across type boundaries
(see `findMatches_mixed_type_match`). -/
theorem findMatches_match_shape (b : Match3.Board)
    (hws : Match3.wellSized b) (hcons : Match3.consistent b)
    (m : Match3.GemMatch) (hm : m ∈ Match3.findMatches b) :
    3 ≤ m.gems.length ∧
    (∀ g ∈ m.gems, ∃ x y : Nat, Match3.cellN b x y = some g) ∧
    ((m.type = "horizontal" ∨ m.type = "vertical") →
      ∃ t, ∀ g ∈ m.gems, g.gemType = t) := by
  unfold Match3.findMatches Match3.consolidateMatches at hm
  exact Match3.consolidateFold_P b hws hcons (Match3.rawMatches b) [] []
    (fun m' hm' => hm') (by intro m' hm'; simp at hm') m hm

/-- Witness for C10's amended theorem: the consolidated special match of the
board `b10` has at least 3 gems. -/
theorem findMatches_match_shape_witness :
    Match3.wellSized Match3.b10 ∧ Match3.consistent Match3.b10 ∧
    (Match3.findMatches Match3.b10).headD ⟨[], ""⟩ ∈
      Match3.findMatches Match3.b10 ∧
    3 ≤ ((Match3.findMatches Match3.b10).headD ⟨[], ""⟩).gems.length :=
  ⟨by decide, by decide, by decide,
    (findMatches_match_shape Match3.b10 (by decide) (by decide)
      ((Match3.findMatches Match3.b10).headD ⟨[], ""⟩) (by decide)).1⟩
